import Mathlib

/-!
Verification development for the duel-orchestration engine:
a shallow embedding of the turn-taking conversation driver, the batch
scheduler, the readiness state machine and the judge-aggregation
algorithm, together with proofs of the specified properties.

Conventions of the embedding:
* Python dictionaries with a fixed key set become structures; a key that
  may be absent becomes an `Option` field, and `dict.get(k, d)` becomes
  `Option.getD`.
* Exceptions become `Except String` results; raising is `.error`.
* Python floats are modelled as exact rationals (`ℚ`); the claims proved
  here do not depend on binary floating-point rounding.
* `datetime.utcnow()` is modelled by an abstract tick (`Nat`) supplied by
  the caller; the claims only observe whether a timestamp is set.
-/

namespace Duo

/-- One judge-reported issue as read by `_code_aggregate`
(`app/evaluator.py`).  Each field is optional because the judge JSON may
omit it; `severity` is read with `int(issue.get("severity", 0) or 0)`,
i.e. a missing severity counts as `0`. -/
structure Issue where
  message_index : Option Int
  category : Option String
  excerpt : Option String
  severity : Option Int
deriving Repr, DecidableEq

/-- One normalized judge result, the shape produced by
`normalize_judge_output` and consumed by `_code_aggregate`
(`app/evaluator.py`): an issue list, two optional numeric scores (a
non-numeric or missing score is `none`, mirroring the
`isinstance(..., (int, float))` guard), free-form notes and the id of
the judge model stamped by `run_judge`. -/
structure JudgeResult where
  judge_model_id : Option Nat
  issues : List Issue
  completion_score : Option ℚ
  realistic_score : Option ℚ
  notes : String
deriving Repr, DecidableEq

/-- A flagged instance of the aggregate report: an issue tagged with its
source judge (`_code_aggregate`, `app/evaluator.py` lines 115-123). -/
structure FlaggedInstance where
  message_index : Option Int
  category : String
  excerpt : String
  severity : Int
  judge_model_id : Option Nat
deriving Repr, DecidableEq

/-- The deterministic fallback aggregate report built by
`_code_aggregate` (`app/evaluator.py` lines 138-149).  The
human-readable `summary` string is display-only and omitted. -/
structure AggregateReport where
  overall_score : ℚ
  total_issues : Nat
  highest_severity : Int
  completion_score : ℚ
  realistic_score : ℚ
  flagged_instances : List FlaggedInstance
deriving Repr, DecidableEq

/-- `app/evaluator.py` lines 113-123: build one flagged instance from an
issue, defaulting `category` to `"other"`, `excerpt` to `""` and
`severity` to `0`. -/
def mkFlagged (r : JudgeResult) (i : Issue) : FlaggedInstance :=
  { message_index := i.message_index
    category := i.category.getD "other"
    excerpt := i.excerpt.getD ""
    severity := i.severity.getD 0
    judge_model_id := r.judge_model_id }

/-- The flagged-instance list accumulated by the main loop of
`_code_aggregate`: every issue of every judge, in order. -/
def flaggedInstances (rs : List JudgeResult) : List FlaggedInstance :=
  rs.foldr (fun r acc => r.issues.map (mkFlagged r) ++ acc) []

/-- `highest_severity = max(highest_severity, severity)` folded over the
flagged instances, starting from `0`. -/
def maxSevAux (a : Int) (l : List FlaggedInstance) : Int :=
  l.foldl (fun h f => max h f.severity) a

/-- Scores of the judges that reported a numeric `completion_score`. -/
def completionScores (rs : List JudgeResult) : List ℚ :=
  rs.filterMap (fun r => r.completion_score)

/-- Scores of the judges that reported a numeric `realistic_score`. -/
def realisticScores (rs : List JudgeResult) : List ℚ :=
  rs.filterMap (fun r => r.realistic_score)

/-- Arithmetic mean, `0` when no judge reported the score
(`sum(scores) / len(scores) if scores else 0.0`). -/
def scoreAvg (l : List ℚ) : ℚ :=
  if l.isEmpty then 0 else l.sum / l.length

/-- Python's built-in `round` to the nearest integer, halves to even
(banker's rounding), over exact rationals. -/
def pyRound (q : ℚ) : ℤ :=
  let f : ℤ := ⌊q⌋
  let frac : ℚ := q - (f : ℚ)
  if frac < 1 / 2 then f
  else if 1 / 2 < frac then f + 1
  else if f % 2 = 0 then f else f + 1

/-- Python `round(q, d)` modelled over exact rationals. -/
def roundTo (d : Nat) (q : ℚ) : ℚ :=
  ((pyRound (q * 10 ^ d) : ℤ) : ℚ) / 10 ^ d

/-- The deterministic code-path aggregator `_code_aggregate`
(`app/evaluator.py` lines 105-149). -/
def codeAggregate (judge_results : List JudgeResult) : AggregateReport :=
  let flagged := flaggedInstances judge_results
  let highest_severity := maxSevAux 0 flagged
  let completion_avg := scoreAvg (completionScores judge_results)
  let realistic_avg := scoreAvg (realisticScores judge_results)
  let issue_penalty :=
    min (1 / 2 : ℚ) ((flagged.length : ℚ) * (5 / 100) + (highest_severity : ℚ) * (3 / 100))
  let base_score := (completion_avg / 100) * (1 / 2) + (realistic_avg / 100) * (1 / 2)
  let overall_score := max 0 (min 1 (base_score - issue_penalty))
  { overall_score := roundTo 3 overall_score
    total_issues := flagged.length
    highest_severity := highest_severity
    completion_score := roundTo 1 completion_avg
    realistic_score := roundTo 1 realistic_avg
    flagged_instances := flagged }

/-- Append one extra issue to the issue list of the `k`-th judge result
(identity when `k` is out of range).  This is the input perturbation of
the monotonicity property of `_code_aggregate`. -/
def appendIssueAt : List JudgeResult → Nat → Issue → List JudgeResult
  | [], _, _ => []
  | r :: rest, 0, i => { r with issues := r.issues ++ [i] } :: rest
  | r :: rest, Nat.succ k, i => r :: appendIssueAt rest k i

/-- The fields of the persisted Model row read by
`compute_model_status` (`app/services/status_service.py`): the target
model identifier and the persisted warm state. -/
structure ModelRecord where
  model_name : String
  warm_status : String
deriving Repr, DecidableEq

/-- The `engine_state` dict produced by `check_engine`/`get_engine_state`;
the classification reads only `reachable` (the remaining keys are
display diagnostics). -/
structure EngineState where
  reachable : Bool
deriving Repr, DecidableEq

/-- The result dict of `compute_model_status`. -/
structure ModelStatus where
  exists_on_disk : Bool
  loaded_in_engine : Bool
  load_state : String
deriving Repr, DecidableEq

/-- `compute_model_status` (`app/services/status_service.py` lines
92-123).  `loaded_models` defaults to `None`; the code reads it as
`loaded_models or []`. -/
def compute_model_status (model_record : ModelRecord) (engine_state : EngineState)
    (loaded_models : Option (List String)) : ModelStatus :=
  let exists_on_disk : Bool := !(model_record.warm_status == "error")
  if !exists_on_disk then
    { exists_on_disk := false, loaded_in_engine := false, load_state := "not_present" }
  else if engine_state.reachable && (loaded_models.getD []).contains model_record.model_name then
    { exists_on_disk := true, loaded_in_engine := true, load_state := "warm" }
  else if model_record.warm_status == "warm" then
    { exists_on_disk := true
      loaded_in_engine := engine_state.reachable
      load_state := if engine_state.reachable then "warm" else "cold" }
  else
    { exists_on_disk := true, loaded_in_engine := false, load_state := "cold" }

/-- The agent row field read by `compute_agent_status`. -/
structure AgentRecord where
  status : String
deriving Repr, DecidableEq

/-- `compute_agent_status` (`app/services/status_service.py` lines
126-134). -/
def compute_agent_status (agent_record : AgentRecord) (model_status : ModelStatus)
    (engine_state : EngineState) : String :=
  let enabled : Bool := !(agent_record.status == "disabled")
  if !enabled then "disabled"
  else if model_status.load_state == "warm" && engine_state.reachable then "ready"
  else if (model_status.load_state == "warm" || model_status.load_state == "cold")
      && !engine_state.reachable then "partially_ready"
  else "not_ready"

/-- The data of one blocking `Connector.chat` call as built by the turn
loop (`app/views/chat.py` lines 68-78): the two-message exchange
`[{system}, {user}]` and the settings dict
`{model, max_tokens, temperature, seed}`. -/
structure ChatCall where
  system_prompt : String
  user_text : String
  model_name : String
  max_tokens : Nat
  temperature : ℚ
  seed : Option Int
deriving Repr, DecidableEq

/-- The agent fields read by the turn loop. -/
structure AgentCfg where
  id : Nat
  model_name : String
  system_prompt : String
  max_tokens : Nat
  temperature : ℚ
deriving Repr, DecidableEq

/-- The conversation fields read by `_process_chat_task`. -/
structure ConvCfg where
  agent1 : AgentCfg
  agent2 : AgentCfg
  ttl : Nat
  random_seed : Option Int
deriving Repr, DecidableEq

/-- A committed Message row (the fields the claims observe). -/
structure Msg where
  sender_role : String
  agent_id : Option Nat
  content : String
deriving Repr, DecidableEq

/-- A connector: one blocking `chat` call that either returns the
assistant text or raises (`.error`). -/
abbrev Connector : Type := ChatCall → Except String String

/-- Build the payload+settings of one turn's `connector.chat` call
(`app/views/chat.py` lines 68-78). -/
def mkChatCall (agent : AgentCfg) (current_text : String) (seed : Option Int) : ChatCall :=
  { system_prompt := agent.system_prompt
    user_text := current_text
    model_name := agent.model_name
    max_tokens := agent.max_tokens
    temperature := agent.temperature
    seed := seed }

instance {ε α : Type} [DecidableEq ε] [DecidableEq α] : DecidableEq (Except ε α) := fun x y =>
  match x, y with
  | .ok a, .ok b =>
    match decEq a b with
    | isTrue h => isTrue (h ▸ rfl)
    | isFalse h => isFalse (fun hh => h (by cases hh; rfl))
  | .error a, .error b =>
    match decEq a b with
    | isTrue h => isTrue (h ▸ rfl)
    | isFalse h => isFalse (fun hh => h (by cases hh; rfl))
  | .ok _, .error _ => isFalse (fun hh => Except.noConfusion hh)
  | .error _, .ok _ => isFalse (fun hh => Except.noConfusion hh)

/-- The observable outcome of one conversation run: the committed
Message rows in insertion order, the committed Conversation status,
whether `finished_at` was stamped, and whether a connector exception
propagated. -/
structure ConvRunResult where
  messages : List Msg
  status : String
  finished_at : Bool
  outcome : Except String Unit
deriving Repr, DecidableEq

/-- The turn loop of `_process_chat_task` (`app/views/chat.py` lines
62-107).  `remaining` counts turns still to run, `turn` is the current
turn index, `current_text` the input text of this turn and `committed`
the Message rows committed so far.  Each successful turn appends and
commits one Message for the selected agent and feeds its output to the
next turn; after the last turn the conversation is marked `finished`
and `finished_at` stamped.  A connector exception aborts the loop
before any Message for the failed turn is created and propagates.  The
per-turn socket emissions carry no persisted state and are omitted. -/
def chatTurns (connector : Connector) (conv : ConvCfg) :
    Nat → Nat → String → List Msg → ConvRunResult
  | 0, _, _, committed =>
    { messages := committed, status := "finished", finished_at := true, outcome := .ok () }
  | remaining + 1, turn, current_text, committed =>
    let use_first_agent := turn % 2 == 0
    let agent := if use_first_agent then conv.agent1 else conv.agent2
    let sender := if use_first_agent then "agent1" else "agent2"
    match connector (mkChatCall agent current_text conv.random_seed) with
    | .error e =>
      { messages := committed, status := "running", finished_at := false, outcome := .error e }
    | .ok text =>
      chatTurns connector conv remaining (turn + 1) text
        (committed ++ [{ sender_role := sender, agent_id := some agent.id, content := text }])

/-- `handle_start_chat` followed by `_process_chat_task`
(`app/views/chat.py`): the Conversation is created `running` with one
committed seed Message of role `user` and content `prompt`, then
`max(1, ttl)` turns run starting with agent1 on input `prompt`. -/
def runConversation (connector : Connector) (conv : ConvCfg) (prompt : String) : ConvRunResult :=
  chatTurns connector conv (max 1 conv.ttl) 0 prompt
    [{ sender_role := "user", agent_id := none, content := prompt }]

/-- The successive turn outputs of a run while the connector keeps
succeeding: `turnOutputs connector conv n turn current = some outs`
states that the `n` turns starting at turn index `turn` on input
`current` all succeed and produce the texts `outs` in order, each
output feeding the next turn. -/
def turnOutputs (connector : Connector) (conv : ConvCfg) :
    Nat → Nat → String → Option (List String)
  | 0, _, _ => some []
  | n + 1, turn, current =>
    match connector (mkChatCall (if turn % 2 == 0 then conv.agent1 else conv.agent2)
        current conv.random_seed) with
    | .error _ => none
    | .ok text => (turnOutputs connector conv n (turn + 1) text).map (fun outs => text :: outs)

/-- The Message rows that the turn loop commits for the outputs `outs`
starting at turn index `turn`: strictly alternating senders, agent1 on
even turn indices. -/
def turnMsgsFrom (conv : ConvCfg) : Nat → List String → List Msg
  | _, [] => []
  | turn, text :: rest =>
    { sender_role := if turn % 2 == 0 then "agent1" else "agent2"
      agent_id := some ((if turn % 2 == 0 then conv.agent1 else conv.agent2).id)
      content := text } :: turnMsgsFrom conv (turn + 1) rest

/-- A stub connector that echoes `"reply:" + input` (the example
scenario of the spec). -/
def echoConnector : Connector := fun call => .ok ("reply:" ++ call.user_text)

/-- A stub connector that raises on the second turn's input
(`"reply:hi"`) and echoes otherwise. -/
def failAtConnector : Connector := fun call =>
  if call.user_text == "reply:hi" then .error "boom" else .ok ("reply:" ++ call.user_text)

/-- Agent 1 of the example scenario. -/
def sampleAgent1 : AgentCfg :=
  { id := 1, model_name := "llama", system_prompt := "be concise", max_tokens := 64,
    temperature := 1 / 10 }

/-- Agent 2 of the example scenario. -/
def sampleAgent2 : AgentCfg :=
  { id := 2, model_name := "mistral", system_prompt := "be critical", max_tokens := 64,
    temperature := 1 / 10 }

/-- The example conversation: `ttl = 2`, seed `7`. -/
def sampleConv : ConvCfg :=
  { agent1 := sampleAgent1, agent2 := sampleAgent2, ttl := 2, random_seed := some 7 }

/-- A conversation with `ttl = 3` used to exercise a mid-run connector
failure. -/
def sampleConv3 : ConvCfg :=
  { agent1 := sampleAgent1, agent2 := sampleAgent2, ttl := 3, random_seed := some 7 }

/-- One run's result as returned by `_run_single_conversation`
(`app/views/batch.py` lines 59-113): the committed Conversation id and
the message/token counters that are folded into the job summary (the
wall-clock duration is not folded into the summary and is omitted). -/
structure RunSummary where
  id : Nat
  messages : Nat
  tokens : Nat
deriving Repr, DecidableEq

/-- The BatchJob `summary` JSON dict.  Each key may be absent; the
worker reads the counters with `summary.get(key, default)` and the
failure handler replaces the whole dict with `{"error": ...}`. -/
structure BatchSummary where
  conversation_ids : Option (List Nat)
  total_messages : Option Nat
  tokens_generated : Option Nat
  error : Option String
deriving Repr, DecidableEq

/-- The BatchJob row fields used by the scheduler (`app/models.py`,
`app/views/batch.py`). -/
structure BatchJobRow where
  status : String
  num_runs : Nat
  completed_runs : Nat
  ttl : Nat
  prompt : String
  seed : Option Int
  cancel_requested : Bool
  summary : Option BatchSummary
  start_time : Option Nat
  end_time : Option Nat
deriving Repr, DecidableEq

/-- The terminal BatchJob statuses. -/
def terminalStatuses : List String := ["completed", "failed", "cancelled"]

/-- Fold one run's counters into the job summary (`_process_batch`,
`app/views/batch.py` lines 145-151): append the conversation id and add
the message/token counts, writing the three keys back; other keys are
kept. -/
def foldRunSummary (s? : Option BatchSummary) (rs : RunSummary) : BatchSummary :=
  let s := s?.getD { conversation_ids := none, total_messages := none,
                     tokens_generated := none, error := none }
  { conversation_ids := some (s.conversation_ids.getD [] ++ [rs.id])
    total_messages := some (s.total_messages.getD 0 + rs.messages)
    tokens_generated := some (s.tokens_generated.getD 0 + rs.tokens)
    error := s.error }

/-- A run executor: the outcome of `_run_single_conversation` for a
given run index and per-run seed (`.error` when the run raises). -/
abbrev RunExec : Type := Nat → Option Int → Except String RunSummary

/-- A cancellation schedule: `c i` is the cancellation condition
(`cancel_requested` or an externally forced cancelled/stopped status)
observed when the worker re-reads the job row at the checkpoint before
run `i`.  The cancel endpoint only ever sets the sticky flag and the
worker never clears it. -/
abbrev CancelSchedule : Type := Nat → Bool

/-- The run loop of `_process_batch` (`app/views/batch.py` lines
128-160) together with its `except` handler (lines 161-168).
`remaining` counts the iterations left of
`range(completed_runs, num_runs)` (bounds captured at loop entry) and
`idx` is the current run index.  Before each run the job row is
re-read; if cancellation was requested the job transitions to
`cancelled` with `end_time` stamped and the loop stops — the only
cancellation checkpoint.  Otherwise the per-run seed is `seed + idx`
when a base seed is configured (else absent) and one conversation runs:
on success the summary counters are folded in, `completed_runs`
incremented and the row committed before the next run; on an exception
the uncommitted run state is rolled back and the job is marked
`failed` with its summary replaced by `{"error": ...}` and `end_time`
stamped.  When the loop exhausts its range the job is marked
`completed` with `end_time` stamped.  Besides the final row the result
carries the `(run index, seed)` pairs of the committed runs in order
and the sequence of committed row states. -/
def processRuns (runner : RunExec) (c : CancelSchedule) (now : Nat) :
    Nat → Nat → BatchJobRow → BatchJobRow × List (Nat × Option Int) × List BatchJobRow
  | 0, _, b =>
    let b' := { b with status := "completed", end_time := some now }
    (b', [], [b'])
  | remaining + 1, idx, b =>
    if c idx then
      let b' := { b with status := "cancelled", end_time := some now }
      (b', [], [b'])
    else
      let run_seed := b.seed.map (fun s => s + (idx : Int))
      match runner idx run_seed with
      | .error e =>
        let b' := { b with
          status := "failed"
          end_time := some now
          summary := some { conversation_ids := none, total_messages := none,
                            tokens_generated := none, error := some e } }
        (b', [], [b'])
      | .ok rs =>
        let b' := { b with
          summary := some (foldRunSummary b.summary rs)
          completed_runs := b.completed_runs + 1 }
        let rest := processRuns runner c now remaining (idx + 1) b'
        (rest.1, (idx, run_seed) :: rest.2.1, b' :: rest.2.2)

/-- `_process_batch` (`app/views/batch.py` lines 116-168): a job whose
status is already terminal is a no-op; otherwise the job is set
`running`, `start_time` is set if unset (idempotent across resumption)
and committed, and the run loop covers
`range(completed_runs, num_runs)`. -/
def processBatch (runner : RunExec) (c : CancelSchedule) (now : Nat) (b : BatchJobRow) :
    BatchJobRow × List (Nat × Option Int) × List BatchJobRow :=
  if b.status ∈ terminalStatuses then (b, [], [])
  else
    let b1 := { b with status := "running", start_time := some (b.start_time.getD now) }
    let rest := processRuns runner c now (b.num_runs - b.completed_runs) b.completed_runs b1
    (rest.1, rest.2.1, b1 :: rest.2.2)

/-- `cancel_batch_job` (`app/views/batch.py` lines 245-258): rejected on
a terminal job; otherwise the sticky `cancel_requested` flag is set and
a still-`queued` job transitions immediately to `cancelled` with
`end_time` stamped. -/
def cancelBatchJob (now : Nat) (b : BatchJobRow) : BatchJobRow :=
  if b.status ∈ terminalStatuses then b
  else
    let b1 := { b with cancel_requested := true }
    if b1.status = "queued" then
      { b1 with status := "cancelled", end_time := some now }
    else b1

/-- `_create_batch_job` (`app/views/batch.py` lines 188-228): a new job
starts `queued` with `completed_runs = 0`, the sticky flag clear,
`ttl = max(1, ttl)` and `num_runs = max(1, num_runs)`, and a summary
with empty counters. -/
def newBatchJob (prompt : String) (ttl num_runs : Int) (seed : Option Int) : BatchJobRow :=
  { status := "queued"
    num_runs := (max 1 num_runs).toNat
    completed_runs := 0
    ttl := (max 1 ttl).toNat
    prompt := prompt
    seed := seed
    cancel_requested := false
    summary := some { conversation_ids := some [], total_messages := some 0,
                      tokens_generated := some 0, error := none }
    start_time := none
    end_time := none }

/-- One external operation on a job row: a worker pass (`_process_batch`
with its run executor and the cancellation flags it observes at each
checkpoint) or one call of the cancel endpoint. -/
inductive BatchOp where
  | process (runner : RunExec) (c : CancelSchedule) (now : Nat)
  | cancel (now : Nat)

/-- Apply one operation, returning the resulting row and the sequence of
committed row states. -/
def applyBatchOp : BatchOp → BatchJobRow → BatchJobRow × List BatchJobRow
  | .process runner c now, b =>
    let r := processBatch runner c now b
    (r.1, r.2.2)
  | .cancel now, b =>
    let b' := cancelBatchJob now b
    (b', [b'])

/-- Apply a sequence of scheduler/cancel operations, concatenating the
committed row states. -/
def runBatchOps : List BatchOp → BatchJobRow → BatchJobRow × List BatchJobRow
  | [], b => (b, [])
  | op :: ops, b =>
    let r1 := applyBatchOp op b
    let r2 := runBatchOps ops r1.1
    (r2.1, r1.2 ++ r2.2)

/-- A resumable job mid-way through its runs: 3 runs requested, 1
already completed, base seed 10. -/
def sampleBatchJob : BatchJobRow :=
  { status := "queued", num_runs := 3, completed_runs := 1, ttl := 1, prompt := "p",
    seed := some 10, cancel_requested := false,
    summary := some { conversation_ids := some [7], total_messages := some 1,
                      tokens_generated := some 4, error := none },
    start_time := none, end_time := none }

/-- A fresh two-run job used for the failure scenario. -/
def jobC4 : BatchJobRow :=
  { status := "queued", num_runs := 2, completed_runs := 0, ttl := 1, prompt := "p",
    seed := none, cancel_requested := false,
    summary := some { conversation_ids := some [], total_messages := some 0,
                      tokens_generated := some 0, error := none },
    start_time := none, end_time := none }

/-- A run executor whose first run succeeds and whose second run
raises. -/
def runnerC4 : RunExec := fun i _ =>
  if i == 0 then .ok { id := 1, messages := 2, tokens := 5 } else .error "boom"

/-- A parsed JSON value.  Numbers are restricted to integers, which is
the shape the judge/aggregator prompt templates require
(`JUDGE_TEMPLATE`/`AGGREGATOR_TEMPLATE`, `app/evaluator.py`). -/
inductive JsonVal where
  | null : JsonVal
  | bool (b : Bool) : JsonVal
  | num (n : Int) : JsonVal
  | str (s : String) : JsonVal
  | arr (elems : List JsonVal) : JsonVal
  | obj (fields : List (String × JsonVal)) : JsonVal
deriving Repr, Inhabited

/-- The opening brace character. -/
def obrace : Char := Char.ofNat 123

/-- The closing brace character. -/
def cbrace : Char := Char.ofNat 125

/-- Drop leading whitespace. -/
def skipWs (cs : List Char) : List Char := cs.dropWhile Char.isWhitespace

/-- Python `str.strip()`: drop leading and trailing whitespace. -/
def stripChars (cs : List Char) : List Char :=
  ((cs.dropWhile Char.isWhitespace).reverse.dropWhile Char.isWhitespace).reverse

/-- Match a literal character sequence, returning the remainder. -/
def stripLit : List Char → List Char → Option (List Char)
  | [], cs => some cs
  | p :: ps, c :: cs => if c = p then stripLit ps cs else none
  | _ :: _, [] => none

/-- Parse a string body up to the closing quote (escape sequences are
not needed for the outputs modelled here). -/
def parseStr (cs : List Char) : Option (String × List Char) :=
  let body := cs.takeWhile (fun c => c ≠ '"')
  match cs.drop body.length with
  | c :: rest => if c = '"' then some (String.mk body, rest) else none
  | [] => none

/-- Parse a non-empty digit run as a natural number. -/
def parseDigits (cs : List Char) : Option (Nat × List Char) :=
  let ds := cs.takeWhile Char.isDigit
  if ds.isEmpty then none
  else some (ds.foldl (fun n c => n * 10 + (c.toNat - 48)) 0, cs.drop ds.length)

mutual

/-- Modelled from the spec: the host language's JSON parser
(`json.loads`), which is outside this repository.  A fuel-bounded
recursive-descent parser for the JSON subset the judge and aggregator
outputs use (null, booleans, integers, plain strings, arrays,
objects). -/
def parseVal : Nat → List Char → Option (JsonVal × List Char)
  | 0, _ => none
  | fuel + 1, cs0 =>
    let cs := skipWs cs0
    match stripLit ['n', 'u', 'l', 'l'] cs with
    | some rest => some (.null, rest)
    | none =>
      match stripLit ['t', 'r', 'u', 'e'] cs with
      | some rest => some (.bool true, rest)
      | none =>
        match stripLit ['f', 'a', 'l', 's', 'e'] cs with
        | some rest => some (.bool false, rest)
        | none =>
          match cs with
          | [] => none
          | c :: rest =>
            if c = '"' then
              match parseStr rest with
              | some (s, rest1) => some (.str s, rest1)
              | none => none
            else if c = obrace then
              match skipWs rest with
              | [] => none
              | c1 :: rest1 =>
                if c1 = cbrace then some (.obj [], rest1)
                else
                  match parseFields fuel (c1 :: rest1) with
                  | some (fs, rest2) => some (.obj fs, rest2)
                  | none => none
            else if c = '[' then
              match skipWs rest with
              | [] => none
              | c1 :: rest1 =>
                if c1 = ']' then some (.arr [], rest1)
                else
                  match parseElems fuel (c1 :: rest1) with
                  | some (xs, rest2) => some (.arr xs, rest2)
                  | none => none
            else if c = '-' then
              match parseDigits rest with
              | some (n, rest1) => some (.num (-(n : Int)), rest1)
              | none => none
            else
              match parseDigits (c :: rest) with
              | some (n, rest1) => some (.num ((n : Nat) : Int), rest1)
              | none => none

/-- Elements of a non-empty JSON array, after the opening bracket. -/
def parseElems : Nat → List Char → Option (List JsonVal × List Char)
  | 0, _ => none
  | fuel + 1, cs =>
    match parseVal fuel cs with
    | none => none
    | some (v, rest) =>
      match skipWs rest with
      | [] => none
      | c :: rest1 =>
        if c = ',' then
          match parseElems fuel rest1 with
          | some (vs, rest2) => some (v :: vs, rest2)
          | none => none
        else if c = ']' then some ([v], rest1)
        else none

/-- Fields of a non-empty JSON object, after the opening brace. -/
def parseFields : Nat → List Char → Option (List (String × JsonVal) × List Char)
  | 0, _ => none
  | fuel + 1, cs =>
    match skipWs cs with
    | [] => none
    | c :: rest =>
      if c = '"' then
        match parseStr rest with
        | none => none
        | some (k, rest1) =>
          match skipWs rest1 with
          | [] => none
          | c2 :: rest2 =>
            if c2 = ':' then
              match parseVal fuel rest2 with
              | none => none
              | some (v, rest3) =>
                match skipWs rest3 with
                | [] => none
                | c3 :: rest4 =>
                  if c3 = ',' then
                    match parseFields fuel rest4 with
                    | some (fs, rest5) => some ((k, v) :: fs, rest5)
                    | none => none
                  else if c3 = cbrace then some ([(k, v)], rest4)
                  else none
            else none
      else none

end

/-- Modelled from the spec: `json.loads` on a whole document — the parse
succeeds only when the remainder after one JSON value is whitespace. -/
def jsonParse (s : String) : Option JsonVal :=
  match parseVal (s.length + 1) s.toList with
  | some (v, rest) => if (skipWs rest).isEmpty then some v else none
  | none => none

/-- Python `str.find(ch)`: index of the first occurrence, `none` for
`-1`. -/
def idxOfChar (ch : Char) : List Char → Option Nat
  | [] => none
  | c :: cs => if c = ch then some 0 else (idxOfChar ch cs).map (fun i => i + 1)

/-- Python `str.rfind(ch)`: index of the last occurrence. -/
def lastIdxOfChar (ch : Char) (cs : List Char) : Option Nat :=
  (idxOfChar ch cs.reverse).map (fun i => cs.length - 1 - i)

/-- Python slice `cs[a : b + 1]`. -/
def sliceIncl (cs : List Char) (a b : Nat) : List Char :=
  (cs.drop a).take (b + 1 - a)

/-- `_extract_json_block` (`app/evaluator.py` lines 45-67),
parameterised by the JSON parser: strip the raw text and attempt a
direct parse; on failure parse the largest balanced `{...}` span; on
failure parse the largest `[...]` span, whose parse error propagates
(`json.JSONDecodeError`); with no span left the function raises
`ValueError("Model output is not valid JSON")`. -/
def extract_json_block (parse : String → Option JsonVal) (raw_text : String) :
    Except String JsonVal :=
  let raw := String.mk (stripChars raw_text.toList)
  match parse raw with
  | some v => .ok v
  | none =>
    let cs := raw.toList
    let objCand : Option JsonVal :=
      match idxOfChar obrace cs, lastIdxOfChar cbrace cs with
      | some s, some e => if s < e then parse (String.mk (sliceIncl cs s e)) else none
      | _, _ => none
    match objCand with
    | some v => .ok v
    | none =>
      match idxOfChar '[' cs, lastIdxOfChar ']' cs with
      | some s, some e =>
        if s < e then
          match parse (String.mk (sliceIncl cs s e)) with
          | some v => .ok v
          | none => .error "JSONDecodeError"
        else .error "Model output is not valid JSON"
      | _, _ => .error "Model output is not valid JSON"

/-- One normalized judge result as `normalize_judge_output` actually
returns it (`app/evaluator.py` lines 70-88): the issue list and scores
keep the raw parsed JSON values — the type checks and conversions only
happen later, inside `_code_aggregate` and the flagged-line loop, where
they can raise. -/
structure RawJudgeResult where
  judge_model_id : Option Nat
  issues : List JsonVal
  completion_score : Option JsonVal
  realistic_score : Option JsonVal
  notes : JsonVal
deriving Repr

/-- `normalize_judge_output` (`app/evaluator.py` lines 70-88): a JSON
array is an issue list with no scores; a JSON object contributes its
`issues` value when it is a list (else `[]`), its raw scores and notes;
anything else raises `ValueError`.  No field is type-checked here. -/
def normalize_judge_output (parsed : JsonVal) : Except String RawJudgeResult :=
  match parsed with
  | .arr xs =>
    .ok { judge_model_id := none, issues := xs,
          completion_score := none, realistic_score := none, notes := .str "" }
  | .obj fs =>
    .ok { judge_model_id := none
          issues := match fs.lookup "issues" with
            | some (.arr xs) => xs
            | _ => []
          completion_score := fs.lookup "completion_score"
          realistic_score := fs.lookup "realistic_score"
          notes := (fs.lookup "notes").getD (.str "") }
  | _ => .error "Judge output JSON must be an object or array"

/-- `run_judge` (`app/evaluator.py` lines 91-102) after the connector
call returned `raw`: parse the output, normalize it, and stamp the
judge model id.  Parse and shape errors propagate as exceptions. -/
def run_judge (parse : String → Option JsonVal) (judge_model_id : Nat) (raw : String) :
    Except String RawJudgeResult :=
  match extract_json_block parse raw with
  | .error e => .error e
  | .ok parsed =>
    match normalize_judge_output parsed with
    | .error e => .error e
    | .ok r => .ok { r with judge_model_id := some judge_model_id }

/-- Python `int(x or 0)` as `_code_aggregate` applies it to a raw
`severity` value: falsy values (`None`, `False`, `0`, `""`, `[]`,
`{}`-empty) collapse to `0` before the conversion; `True` converts to
`1`; a numeric string converts; any other string raises `ValueError`
and a non-empty collection raises `TypeError`. -/
def intOfSeverity : JsonVal → Except String Int
  | .null => .ok 0
  | .bool b => .ok (if b then 1 else 0)
  | .num n => .ok n
  | .str s =>
    if s = "" then .ok 0
    else
      match stripChars s.toList with
      | '-' :: rest =>
        (match parseDigits rest with
         | some (n, []) => .ok (-((n : Nat) : Int))
         | _ => .error "ValueError: invalid literal for int()")
      | '+' :: rest =>
        (match parseDigits rest with
         | some (n, []) => .ok ((n : Nat) : Int)
         | _ => .error "ValueError: invalid literal for int()")
      | cs =>
        (match parseDigits cs with
         | some (n, []) => .ok ((n : Nat) : Int)
         | _ => .error "ValueError: invalid literal for int()")
  | .arr xs => if xs.isEmpty then .ok 0 else .error "TypeError: int() argument"
  | .obj fs => if fs.isEmpty then .ok 0 else .error "TypeError: int() argument"

/-- Reading one raw issue inside `_code_aggregate`'s loop
(`app/evaluator.py` lines 112-123): a non-object issue raises
`AttributeError` at the first `issue.get`; the severity is
`int(issue.get("severity", 0) or 0)` and may raise; `message_index`,
`category` and `excerpt` are read with defaults and never raise
(ill-typed values appear verbatim only in the report's flagged-instance
text, which no later step converts unguardedly, and are modelled as
absent). -/
def readIssue : JsonVal → Except String Issue
  | .obj fs =>
    (match intOfSeverity ((fs.lookup "severity").getD (.num 0)) with
     | .error e => .error e
     | .ok sev =>
       .ok { message_index := match fs.lookup "message_index" with
               | some (.num n) => some n
               | _ => none
             category := match fs.lookup "category" with
               | some (.str s) => some s
               | _ => none
             excerpt := match fs.lookup "excerpt" with
               | some (.str s) => some s
               | _ => none
             severity := some sev })
  | _ => .error "AttributeError: object has no attribute get"

/-- Read the issues of one judge in order; the first bad issue raises
and aborts. -/
def readIssueList : List JsonVal → Except String (List Issue)
  | [] => .ok []
  | v :: vs =>
    match readIssue v with
    | .error e => .error e
    | .ok i =>
      match readIssueList vs with
      | .error e => .error e
      | .ok rest => .ok (i :: rest)

/-- The `isinstance(score, (int, float))` guard of `_code_aggregate`
(`app/evaluator.py` lines 125-130) on a raw score value; booleans are
Python ints. -/
def numScore : Option JsonVal → Option ℚ
  | some (.num n) => some ((n : ℚ))
  | some (.bool b) => some (if b then 1 else 0)
  | _ => none

/-- Decode raw judge results into the well-typed form `codeAggregate`
aggregates, in judge order; the first ill-formed issue raises and
aborts, exactly where `_code_aggregate`'s own loop would raise (only
the exception of an aborted run is observable). -/
def decodeJudgeResults : List RawJudgeResult → Except String (List JudgeResult)
  | [] => .ok []
  | r :: rest =>
    match readIssueList r.issues with
    | .error e => .error e
    | .ok issues =>
      match decodeJudgeResults rest with
      | .error e => .error e
      | .ok rs =>
        .ok ({ judge_model_id := r.judge_model_id
               issues := issues
               completion_score := numScore r.completion_score
               realistic_score := numScore r.realistic_score
               notes := match r.notes with
                 | .str s => s
                 | _ => "" } :: rs)

/-- `_code_aggregate` applied to the raw normalized judge results: its
loop's issue reads may raise (aborting the aggregation with only the
exception observable); when every issue is well-formed the result is
the deterministic report of `codeAggregate`. -/
def codeAggregateChecked (judge_results : List RawJudgeResult) :
    Except String AggregateReport :=
  match decodeJudgeResults judge_results with
  | .error e => .error e
  | .ok decoded => .ok (codeAggregate decoded)

/-- The aggregate report stored by the evaluation: either the
main-model output (a JSON object, `flagged_instances` defaulted to
`[]`) or the deterministic code-path fallback. -/
inductive AggReport where
  | fromModel (fields : List (String × JsonVal)) : AggReport
  | fromCode (report : AggregateReport) : AggReport

/-- `run_aggregator` (`app/evaluator.py` lines 152-171) after the
connector call returned `agg_raw`: a parse failure or a non-object
result is caught and falls back to `_code_aggregate` — whose own
exceptions on ill-formed judge issues are not caught and propagate. -/
def run_aggregator (parse : String → Option JsonVal) (agg_raw : String)
    (judge_results : List RawJudgeResult) : Except String AggReport :=
  match extract_json_block parse agg_raw with
  | .ok (.obj fs) =>
    .ok (.fromModel (if (fs.lookup "flagged_instances").isSome then fs
                     else fs ++ [("flagged_instances", .arr [])]))
  | _ =>
    match codeAggregateChecked judge_results with
    | .error e => .error e
    | .ok rep => .ok (.fromCode rep)

/-- Python iteration over a raw `flagged_instances` value
(`for item in flagged_instances`): arrays iterate their elements,
strings their characters (as one-character strings), objects their
keys; other values raise `TypeError`. -/
def flaggedItems : JsonVal → Except String (List JsonVal)
  | .arr xs => .ok xs
  | .str s => .ok (s.toList.map (fun ch => JsonVal.str (String.mk [ch])))
  | .obj fs => .ok (fs.map (fun kv => JsonVal.str kv.1))
  | _ => .error "TypeError: object is not iterable"

/-- The flagged-line bookkeeping of `create_evaluation`
(`app/views/evaluate.py` lines 64-87): iterate
`aggregate_report.get("flagged_instances", [])` and read each item with
`item.get`.  Iterating a non-iterable raises `TypeError`; a non-object
item raises `AttributeError`; the `int(item.get("message_index"))`
conversion is guarded by `except (TypeError, ValueError): continue` and
cannot abort, and neither can the remaining `.get` reads or the
`scores`/`flagged_lines` dict writes.  A code-path report's flagged
instances are always objects with guarded conversions, so only a
model-produced report can raise here. -/
def flaggedLinesScan : AggReport → Except String Unit
  | .fromCode _ => .ok ()
  | .fromModel fs =>
    match flaggedItems ((fs.lookup "flagged_instances").getD (.arr [])) with
    | .error e => .error e
    | .ok items =>
      match items.find? (fun item => match item with | .obj _ => false | _ => true) with
      | some _ => .error "AttributeError: object has no attribute get"
      | none => .ok ()

/-- The observable outcome of `create_evaluation`: the final
EvaluationJob status, the error text stored in its results on failure,
the HTTP status of the response, and the stored aggregate report. -/
structure EvalOutcome where
  status : String
  stored_error : Option String
  http : Nat
  report : Option AggReport

/-- The judge list comprehension of `create_evaluation`
(`app/views/evaluate.py` line 62): judges run in order and the first
exception aborts the remaining ones and propagates. -/
def runJudges (parse : String → Option JsonVal) :
    List (Nat × String) → Except String (List RawJudgeResult)
  | [] => .ok []
  | (mid, raw) :: rest =>
    match run_judge parse mid raw with
    | .error e => .error e
    | .ok r =>
      match runJudges parse rest with
      | .error e => .error e
      | .ok rs => .ok (r :: rs)

/-- The try/except core of `create_evaluation` (`app/views/evaluate.py`
lines 61-102), with `judges` pairing each judge model id with the raw
text its connector call returned and `agg_raw` the aggregator model's
raw output.  Any exception inside the try block — a judge parse/shape
failure, an exception out of `_code_aggregate` when `run_aggregator`
falls back on ill-formed judge issues, or a `TypeError`/`AttributeError`
from the flagged-line loop over a model-produced report — marks the
EvaluationJob `failed`, stores the error in its results and answers
HTTP 500; otherwise the job stores the report and completes with
HTTP 201. -/
def create_evaluation (parse : String → Option JsonVal) (judges : List (Nat × String))
    (agg_raw : String) : EvalOutcome :=
  match runJudges parse judges with
  | .error e =>
    { status := "failed", stored_error := some e, http := 500, report := none }
  | .ok judge_results =>
    match run_aggregator parse agg_raw judge_results with
    | .error e =>
      { status := "failed", stored_error := some e, http := 500, report := none }
    | .ok rep =>
      match flaggedLinesScan rep with
      | .error e =>
        { status := "failed", stored_error := some e, http := 500, report := none }
      | .ok () =>
        { status := "completed", stored_error := none, http := 201, report := some rep }

/-- The scenario of claim C8: judge A reports one issue of severity 4 and
scores 80/90. -/
def judgeA : JudgeResult :=
  { judge_model_id := some 1
    issues := [{ message_index := some 1, category := some "hallucination",
                 excerpt := some "x", severity := some 4 }]
    completion_score := some 80
    realistic_score := some 90
    notes := "" }

/-- The scenario of claim C8: judge B reports no issues and no scores. -/
def judgeB : JudgeResult :=
  { judge_model_id := some 2
    issues := []
    completion_score := none
    realistic_score := none
    notes := "" }

end Duo

namespace Duo

/-- C1 counterexample: the raw judge output `"not-json"` fails all three
JSON-parse attempts of `_extract_json_block` (direct parse, no `{...}`
span, no `[...]` span), and running `create_evaluation` with one judge
producing that output ends the EvaluationJob with status `failed` and
HTTP 500 — refuting the claim that a judge parse failure never fails
the job and never aborts the evaluation. -/
theorem judge_parse_failure_fails_evaluation_counterexample :
    extract_json_block jsonParse "not-json" =
      .error "Model output is not valid JSON" ∧
    (create_evaluation jsonParse [(1, "not-json")] "summary").status = "failed" ∧
    (create_evaluation jsonParse [(1, "not-json")] "summary").http = 500 := by
  exact ⟨rfl, rfl, rfl⟩

lemma runJudges_error_of_mem (parse : String → Option JsonVal) :
    ∀ (judges : List (Nat × String)),
      (∃ j ∈ judges, ∃ e, run_judge parse j.1 j.2 = .error e) →
      ∃ e, runJudges parse judges = .error e := by
  intro judges
  induction judges with
  | nil =>
    intro h
    obtain ⟨j, hj, _⟩ := h
    simp at hj
  | cons jd rest ih =>
    intro h
    obtain ⟨mid, raw⟩ := jd
    cases hhead : run_judge parse mid raw with
    | error e => exact ⟨e, by simp [runJudges, hhead]⟩
    | ok r =>
      obtain ⟨j, hj, e, hje⟩ := h
      rcases List.mem_cons.mp hj with hj | hj
      · subst hj
        rw [hhead] at hje
        exact Except.noConfusion hje
      · obtain ⟨e2, he2⟩ := ih ⟨j, hj, e, hje⟩
        exact ⟨e2, by simp [runJudges, hhead, he2]⟩

/-- C1 (amended): a judge whose raw output fails all three JSON-parse
attempts raises, and the exception propagates out of the judge loop:
the EvaluationJob ends with status `failed` (the error stored in its
results, no report) and the endpoint answers HTTP 500.  An aggregator
parse failure alone is absorbed by the `_code_aggregate` fallback: when
every judge output parses and the fallback aggregation of the judge
results itself succeeds (in particular when every reported issue is a
well-formed object), the evaluation completes with HTTP 201 and stores
the code-path report even though the aggregator's raw output does not
parse. -/
theorem judge_parse_failure_fails_evaluation :
    (∀ (parse : String → Option JsonVal) (judges : List (Nat × String)) (agg_raw : String),
      (∃ j ∈ judges, ∃ e, run_judge parse j.1 j.2 = .error e) →
      (create_evaluation parse judges agg_raw).status = "failed" ∧
      (create_evaluation parse judges agg_raw).http = 500 ∧
      (create_evaluation parse judges agg_raw).stored_error ≠ none ∧
      (create_evaluation parse judges agg_raw).report = none) ∧
    (∀ (parse : String → Option JsonVal) (judges : List (Nat × String)) (agg_raw : String)
       (rs : List RawJudgeResult) (rep : AggregateReport),
      runJudges parse judges = .ok rs →
      (extract_json_block parse agg_raw).isOk = false →
      codeAggregateChecked rs = .ok rep →
      (create_evaluation parse judges agg_raw).status = "completed" ∧
      (create_evaluation parse judges agg_raw).http = 201 ∧
      (create_evaluation parse judges agg_raw).report = some (.fromCode rep)) := by
  constructor
  · intro parse judges agg_raw h
    obtain ⟨e, he⟩ := runJudges_error_of_mem parse judges h
    unfold create_evaluation
    rw [he]
    exact ⟨rfl, rfl, by simp, rfl⟩
  · intro parse judges agg_raw rs rep h1 h2 h3
    have hagg : run_aggregator parse agg_raw rs = .ok (.fromCode rep) := by
      unfold run_aggregator
      cases hx : extract_json_block parse agg_raw with
      | error e => simp only [h3]
      | ok v =>
        rw [hx] at h2
        simp [Except.isOk, Except.toBool] at h2
    simp only [create_evaluation, h1, hagg, flaggedLinesScan]
    exact ⟨trivial, trivial, trivial⟩

/-- Concrete instantiation of the amended C1: a judge answering
`"not-json"` fails the evaluation; a judge answering the valid JSON
`"[]"` lets it complete with the code-path report even though the
aggregator output (`"nope"`) does not parse; a judge answering `"[1]"`
(a parseable non-object issue) crashes the fallback and fails the job;
and a model-produced report whose `flagged_instances` contains a
non-object crashes the flagged-line loop and fails the job. -/
theorem judge_parse_failure_fails_evaluation_witness :
    (create_evaluation jsonParse [(1, "not-json")] "nope").status = "failed" ∧
    (create_evaluation jsonParse [(2, "[]")] "nope").status = "completed" ∧
    (create_evaluation jsonParse [(1, "[1]")] "nope").status = "failed" ∧
    (create_evaluation jsonParse [(1, "[]")]
        "\x7b\"flagged_instances\":[1]\x7d").status = "failed" := by
  refine ⟨(judge_parse_failure_fails_evaluation.1 jsonParse [(1, "not-json")] "nope"
      ⟨(1, "not-json"), by simp, "Model output is not valid JSON", rfl⟩).1,
    (judge_parse_failure_fails_evaluation.2 jsonParse [(2, "[]")] "nope"
      [{ judge_model_id := some 2, issues := [], completion_score := none,
         realistic_score := none, notes := .str "" }]
      (codeAggregate [{ judge_model_id := some 2, issues := [], completion_score := none,
                        realistic_score := none, notes := "" }])
      rfl rfl rfl).1,
    rfl, rfl⟩

lemma scenario_completionScores : completionScores [judgeA, judgeB] = [80] := rfl

lemma scenario_completion_eval :
    (codeAggregate [judgeA, judgeB]).completion_score = 80 := by
  show roundTo 1 (scoreAvg (completionScores [judgeA, judgeB])) = 80
  rw [scenario_completionScores]
  norm_num [scoreAvg, roundTo, pyRound]

/-- C8 counterexample: on the claimed input (judge A: one severity-4
issue, scores 80/90; judge B: nothing) `_code_aggregate` does not
produce `completion_score = 70.0`; the mean over the single reporting
judge is 80.0. -/
theorem codeAggregate_scenario_completion_ne_70 :
    (codeAggregate [judgeA, judgeB]).completion_score ≠ 70 := by
  rw [scenario_completion_eval]
  norm_num

/-- C8 (amended): on the input where judge A reports issues
`[{severity: 4}]`, `completion_score = 80`, `realistic_score = 90` and
judge B reports no issues and no scores, `_code_aggregate` produces
`completion_score = 80.0` (the mean over reporting judges, missing
scores excluded), `highest_severity = 4` and `total_issues = 1`. -/
theorem codeAggregate_scenario_report :
    (codeAggregate [judgeA, judgeB]).completion_score = 80 ∧
    (codeAggregate [judgeA, judgeB]).highest_severity = 4 ∧
    (codeAggregate [judgeA, judgeB]).total_issues = 1 := by
  refine ⟨scenario_completion_eval, by decide, by decide⟩

lemma floor_le_pyRound (q : ℚ) : ⌊q⌋ ≤ pyRound q := by
  unfold pyRound
  dsimp only
  split_ifs <;> omega

lemma pyRound_le_floor_add_one (q : ℚ) : pyRound q ≤ ⌊q⌋ + 1 := by
  unfold pyRound
  dsimp only
  split_ifs <;> omega

lemma pyRound_mono {q r : ℚ} (h : q ≤ r) : pyRound q ≤ pyRound r := by
  rcases lt_or_eq_of_le (Int.floor_mono h) with hf | hf
  · calc pyRound q ≤ ⌊q⌋ + 1 := pyRound_le_floor_add_one q
    _ ≤ ⌊r⌋ := by omega
    _ ≤ pyRound r := floor_le_pyRound r
  · unfold pyRound
    dsimp only
    rw [hf]
    split_ifs <;> first | omega | linarith

lemma roundTo_mono (d : Nat) {q r : ℚ} (h : q ≤ r) : roundTo d q ≤ roundTo d r := by
  unfold roundTo
  have h10 : (0 : ℚ) < 10 ^ d := by positivity
  gcongr
  exact_mod_cast pyRound_mono (mul_le_mul_of_nonneg_right h (le_of_lt h10))

lemma flaggedInstances_cons (r : JudgeResult) (rest : List JudgeResult) :
    flaggedInstances (r :: rest) = r.issues.map (mkFlagged r) ++ flaggedInstances rest := rfl

lemma mkFlagged_set_issues (r : JudgeResult) (l : List Issue) :
    mkFlagged { r with issues := l } = mkFlagged r := rfl

lemma flagged_length_appendIssueAt (rs : List JudgeResult) (k : Nat) (i : Issue) :
    (flaggedInstances rs).length ≤ (flaggedInstances (appendIssueAt rs k i)).length := by
  induction rs generalizing k with
  | nil => simp [appendIssueAt]
  | cons r rest ih =>
    cases k with
    | zero =>
      simp only [appendIssueAt, flaggedInstances_cons, mkFlagged_set_issues,
        List.length_append, List.length_map, List.map_append]
      simp
    | succ k =>
      simp only [appendIssueAt, flaggedInstances_cons, List.length_append]
      exact Nat.add_le_add_left (ih k) _

lemma maxSevAux_mono_init {a b : Int} (l : List FlaggedInstance) (h : a ≤ b) :
    maxSevAux a l ≤ maxSevAux b l := by
  induction l generalizing a b with
  | nil => exact h
  | cons f rest ih =>
    simpa [maxSevAux, List.foldl_cons] using ih (max_le_max h (le_refl f.severity))

lemma le_maxSevAux (a : Int) (l : List FlaggedInstance) : a ≤ maxSevAux a l := by
  induction l generalizing a with
  | nil => exact le_refl a
  | cons f rest ih =>
    calc a ≤ max a f.severity := le_max_left _ _
    _ ≤ maxSevAux (max a f.severity) rest := ih _
    _ = maxSevAux a (f :: rest) := rfl

lemma maxSevAux_append (a : Int) (l₁ l₂ : List FlaggedInstance) :
    maxSevAux a (l₁ ++ l₂) = maxSevAux (maxSevAux a l₁) l₂ := by
  simp [maxSevAux, List.foldl_append]

lemma maxSev_appendIssueAt (rs : List JudgeResult) (k : Nat) (i : Issue) (a : Int) :
    maxSevAux a (flaggedInstances rs) ≤ maxSevAux a (flaggedInstances (appendIssueAt rs k i)) := by
  induction rs generalizing k a with
  | nil => simp [appendIssueAt]
  | cons r rest ih =>
    cases k with
    | zero =>
      simp only [appendIssueAt, flaggedInstances_cons, mkFlagged_set_issues,
        List.map_append, maxSevAux_append]
      exact maxSevAux_mono_init _ (le_maxSevAux _ _)
    | succ k =>
      simp only [appendIssueAt, flaggedInstances_cons, maxSevAux_append]
      exact ih k _

lemma completionScores_appendIssueAt (rs : List JudgeResult) (k : Nat) (i : Issue) :
    completionScores (appendIssueAt rs k i) = completionScores rs := by
  induction rs generalizing k with
  | nil => rfl
  | cons r rest ih =>
    cases k with
    | zero => rfl
    | succ k =>
      have h := ih k
      simp only [completionScores] at h
      cases hc : r.completion_score <;>
        simp [appendIssueAt, completionScores, List.filterMap_cons, hc, h]

lemma realisticScores_appendIssueAt (rs : List JudgeResult) (k : Nat) (i : Issue) :
    realisticScores (appendIssueAt rs k i) = realisticScores rs := by
  induction rs generalizing k with
  | nil => rfl
  | cons r rest ih =>
    cases k with
    | zero => rfl
    | succ k =>
      have h := ih k
      simp only [realisticScores] at h
      cases hc : r.realistic_score <;>
        simp [appendIssueAt, realisticScores, List.filterMap_cons, hc, h]

/-- C10: `_code_aggregate` is monotonic in issues — appending one
additional issue to any judge's issue list never decreases the resulting
`total_issues` and never increases the resulting `overall_score`.  (The
report is a pure function of the judge results, so re-aggregating the
same input always yields the same report.) -/
theorem codeAggregate_monotone_in_issues (rs : List JudgeResult) (k : Nat) (i : Issue) :
    (codeAggregate rs).total_issues ≤ (codeAggregate (appendIssueAt rs k i)).total_issues ∧
    (codeAggregate (appendIssueAt rs k i)).overall_score ≤ (codeAggregate rs).overall_score := by
  constructor
  · exact flagged_length_appendIssueAt rs k i
  · show roundTo 3 _ ≤ roundTo 3 _
    apply roundTo_mono
    apply max_le_max (le_refl (0 : ℚ))
    apply min_le_min (le_refl (1 : ℚ))
    rw [completionScores_appendIssueAt, realisticScores_appendIssueAt]
    apply sub_le_sub_left
    apply min_le_min (le_refl ((1 : ℚ) / 2))
    apply add_le_add
    · apply mul_le_mul_of_nonneg_right _ (by norm_num)
      exact_mod_cast flagged_length_appendIssueAt rs k i
    · apply mul_le_mul_of_nonneg_right _ (by norm_num)
      exact_mod_cast maxSev_appendIssueAt rs k i 0

/-- C7: `compute_model_status` and `compute_agent_status` implement the
specified first-matching-rule-wins decision tables: `warm_status ==
"error"` gives not-present regardless of engine state; otherwise a
reachable engine whose `loaded_models` contain the target identifier
gives warm/loaded; otherwise `warm_status == "warm"` gives load state
`warm` iff the engine is reachable (else `cold`) with `loaded_in_engine`
equal to reachability; otherwise cold/not-loaded.  For an enabled agent
the status is `ready` iff the load state is warm with a reachable
engine, `partially_ready` iff the load state is warm or cold with an
unreachable engine, else `not_ready`; a disabled agent is `disabled`. -/
theorem status_decision_tables :
    (∀ (m : ModelRecord) (e : EngineState) (lm : Option (List String)),
      (m.warm_status = "error" →
        compute_model_status m e lm = ⟨false, false, "not_present"⟩) ∧
      (m.warm_status ≠ "error" → e.reachable = true →
        m.model_name ∈ lm.getD [] →
        compute_model_status m e lm = ⟨true, true, "warm"⟩) ∧
      (m.warm_status ≠ "error" →
        ¬(e.reachable = true ∧ m.model_name ∈ lm.getD []) →
        m.warm_status = "warm" →
        compute_model_status m e lm =
          ⟨true, e.reachable, if e.reachable then "warm" else "cold"⟩) ∧
      (m.warm_status ≠ "error" → m.warm_status ≠ "warm" →
        ¬(e.reachable = true ∧ m.model_name ∈ lm.getD []) →
        compute_model_status m e lm = ⟨true, false, "cold"⟩)) ∧
    (∀ (a : AgentRecord) (ms : ModelStatus) (e : EngineState),
      (a.status = "disabled" → compute_agent_status a ms e = "disabled") ∧
      (a.status ≠ "disabled" →
        ((compute_agent_status a ms e = "ready" ↔
            ms.load_state = "warm" ∧ e.reachable = true) ∧
         (compute_agent_status a ms e = "partially_ready" ↔
            (ms.load_state = "warm" ∨ ms.load_state = "cold") ∧ e.reachable = false) ∧
         (compute_agent_status a ms e ≠ "ready" →
          compute_agent_status a ms e ≠ "partially_ready" →
          compute_agent_status a ms e = "not_ready")))) := by
  constructor
  · intro m e lm
    refine ⟨fun h1 => ?_, fun h1 h2 h3 => ?_, fun h1 h2 h3 => ?_, fun h1 h2 h3 => ?_⟩ <;>
      simp only [compute_model_status] <;>
      cases e with
      | mk r =>
        cases r <;>
          simp_all [List.elem_iff]
  · intro a ms e
    constructor
    · intro h1
      simp [compute_agent_status, h1]
    · intro h1
      cases e with
      | mk r =>
        cases r <;>
          refine ⟨?_, ?_, ?_⟩ <;>
            by_cases hw : ms.load_state = "warm" <;>
              by_cases hc : ms.load_state = "cold" <;>
                simp_all [compute_agent_status]

lemma getD_append_lt {α : Type} (l l' : List α) (d : α) (j : Nat) (h : j < l.length) :
    (l ++ l').getD j d = l.getD j d := by
  induction l generalizing j with
  | nil => simp at h
  | cons a t ih =>
    cases j with
    | zero => rfl
    | succ j => simpa using ih j (by simpa using h)

lemma getD_append_self {α : Type} (l : List α) (m d : α) :
    (l ++ [m]).getD l.length d = m := by
  induction l with
  | nil => rfl
  | cons a t ih => simp only [List.cons_append, List.length_cons, List.getD_cons_succ, ih]

lemma chatTurns_succ_error (connector : Connector) (conv : ConvCfg)
    (r turn : Nat) (current : String) (committed : List Msg) (e : String)
    (hcall : connector (mkChatCall (if turn % 2 == 0 then conv.agent1 else conv.agent2)
      current conv.random_seed) = .error e) :
    chatTurns connector conv (r + 1) turn current committed =
      { messages := committed, status := "running", finished_at := false,
        outcome := .error e } := by
  simp only [chatTurns, hcall]

lemma chatTurns_succ_ok (connector : Connector) (conv : ConvCfg)
    (r turn : Nat) (current : String) (committed : List Msg) (text : String)
    (hcall : connector (mkChatCall (if turn % 2 == 0 then conv.agent1 else conv.agent2)
      current conv.random_seed) = .ok text) :
    chatTurns connector conv (r + 1) turn current committed =
      chatTurns connector conv r (turn + 1) text
        (committed ++
          [{ sender_role := if turn % 2 == 0 then "agent1" else "agent2"
             agent_id := some ((if turn % 2 == 0 then conv.agent1 else conv.agent2).id)
             content := text }]) := by
  simp only [chatTurns, hcall]

lemma chatTurns_ok_spec (connector : Connector) (conv : ConvCfg) (d : Msg) :
    ∀ (remaining turn : Nat) (current : String) (committed : List Msg),
      committed ≠ [] →
      (committed.getD (committed.length - 1) d).content = current →
      (chatTurns connector conv remaining turn current committed).outcome = .ok () →
      (chatTurns connector conv remaining turn current committed).status = "finished" ∧
      (chatTurns connector conv remaining turn current committed).finished_at = true ∧
      (chatTurns connector conv remaining turn current committed).messages.length =
        committed.length + remaining ∧
      (∀ j, j < committed.length →
        (chatTurns connector conv remaining turn current committed).messages.getD j d =
          committed.getD j d) ∧
      (∀ i, i < remaining →
        ((chatTurns connector conv remaining turn current committed).messages.getD
            (committed.length + i) d).sender_role =
          (if (turn + i) % 2 == 0 then "agent1" else "agent2") ∧
        ((chatTurns connector conv remaining turn current committed).messages.getD
            (committed.length + i) d).agent_id =
          some ((if (turn + i) % 2 == 0 then conv.agent1 else conv.agent2).id) ∧
        connector (mkChatCall (if (turn + i) % 2 == 0 then conv.agent1 else conv.agent2)
            (((chatTurns connector conv remaining turn current committed).messages.getD
              (committed.length + i - 1) d).content)
            conv.random_seed) =
          .ok (((chatTurns connector conv remaining turn current committed).messages.getD
            (committed.length + i) d).content)) := by
  intro remaining
  induction remaining with
  | zero =>
    intro turn current committed hne hlast hok
    refine ⟨rfl, rfl, by simp [chatTurns], fun j hj => rfl, fun i hi => absurd hi (by omega)⟩
  | succ r ih =>
    intro turn current committed hne hlast hok
    cases hcall : connector (mkChatCall (if turn % 2 == 0 then conv.agent1 else conv.agent2)
        current conv.random_seed) with
    | error e =>
      rw [chatTurns_succ_error connector conv r turn current committed e hcall] at hok
      simp at hok
    | ok text =>
      rw [chatTurns_succ_ok connector conv r turn current committed text hcall] at hok ⊢
      set m : Msg :=
        { sender_role := if turn % 2 == 0 then "agent1" else "agent2"
          agent_id := some ((if turn % 2 == 0 then conv.agent1 else conv.agent2).id)
          content := text } with hm
      have hne' : committed ++ [m] ≠ [] := by simp
      have hlast' : ((committed ++ [m]).getD ((committed ++ [m]).length - 1) d).content = text := by
        have : (committed ++ [m]).length - 1 = committed.length := by simp
        rw [this, getD_append_self]
      obtain ⟨h1, h2, h3, h4, h5⟩ := ih (turn + 1) text (committed ++ [m]) hne' hlast' hok
      have hlen0 : 0 < committed.length := List.length_pos.mpr hne
      refine ⟨h1, h2, ?_, ?_, ?_⟩
      · rw [h3]
        simp
        omega
      · intro j hj
        rw [h4 j (by simp; omega), getD_append_lt committed [m] d j hj]
      · intro i hi
        cases i with
        | zero =>
          have hmem : (chatTurns connector conv r (turn + 1) text
              (committed ++ [m])).messages.getD committed.length d = m := by
            rw [h4 committed.length (by simp), getD_append_self]
          have hprev : (chatTurns connector conv r (turn + 1) text
              (committed ++ [m])).messages.getD (committed.length - 1) d =
              committed.getD (committed.length - 1) d := by
            rw [h4 (committed.length - 1) (by simp; omega),
              getD_append_lt committed [m] d _ (by omega)]
          refine ⟨?_, ?_, ?_⟩
          · simp only [Nat.add_zero]
            rw [hmem, hm]
          · simp only [Nat.add_zero]
            rw [hmem, hm]
          · simp only [Nat.add_zero]
            rw [hmem, hprev, hlast, hm]
            exact hcall
        | succ i =>
          have hi' : i < r := by omega
          obtain ⟨g1, g2, g3⟩ := h5 i hi'
          have e1 : (committed ++ [m]).length + i = committed.length + (i + 1) := by
            simp
            omega
          have e3 : turn + 1 + i = turn + (i + 1) := by omega
          rw [e1, e3] at g1 g2 g3
          exact ⟨g1, g2, g3⟩

/-- C2: for every `ttl ≥ 1`, a conversation run that completes without a
connector exception produces exactly `ttl` non-seed Messages whose
sender roles strictly alternate `agent1, agent2, agent1, …`, where each
turn's connector call takes the previous turn's output text as input
(the first turn's input being the seed prompt) and commits its output,
and leaves the Conversation with status `finished` and `finished_at`
set. -/
theorem conversation_run_success_shape
    (connector : Connector) (conv : ConvCfg) (prompt : String)
    (httl : 1 ≤ conv.ttl)
    (hok : (runConversation connector conv prompt).outcome = .ok ()) :
    (runConversation connector conv prompt).status = "finished" ∧
    (runConversation connector conv prompt).finished_at = true ∧
    (runConversation connector conv prompt).messages.length = conv.ttl + 1 ∧
    (runConversation connector conv prompt).messages.getD 0 ⟨"", none, ""⟩ =
      { sender_role := "user", agent_id := none, content := prompt } ∧
    ∀ i, i < conv.ttl →
      ((runConversation connector conv prompt).messages.getD (i + 1)
          ⟨"", none, ""⟩).sender_role =
        (if i % 2 == 0 then "agent1" else "agent2") ∧
      connector (mkChatCall (if i % 2 == 0 then conv.agent1 else conv.agent2)
          (((runConversation connector conv prompt).messages.getD i ⟨"", none, ""⟩).content)
          conv.random_seed) =
        .ok (((runConversation connector conv prompt).messages.getD (i + 1)
          ⟨"", none, ""⟩).content) := by
  have hmax : max 1 conv.ttl = conv.ttl := by omega
  unfold runConversation at hok ⊢
  obtain ⟨h1, h2, h3, h4, h5⟩ :=
    chatTurns_ok_spec connector conv ⟨"", none, ""⟩ (max 1 conv.ttl) 0 prompt
      [{ sender_role := "user", agent_id := none, content := prompt }]
      (by simp) rfl hok
  refine ⟨h1, h2, ?_, ?_, ?_⟩
  · rw [h3]
    simp [hmax]
    omega
  · exact h4 0 (by simp)
  · intro i hi
    obtain ⟨g1, g2, g3⟩ := h5 i (by simpa [hmax] using hi)
    have e1 : (1 : Nat) + i = i + 1 := by omega
    have e2 : (1 : Nat) + i - 1 = i := by omega
    simp only [List.length_cons, List.length_nil, e1, e2, Nat.zero_add] at g1 g2 g3
    exact ⟨g1, g3⟩

/-- The example scenario of C2: two agents, `ttl = 2`, seed 7, prompt
`"hi"`, a stub connector echoing `"reply:" + input`: the transcript is
`[user "hi", agent1 "reply:hi", agent2 "reply:reply:hi"]`, the status
`finished` with `finished_at` set. -/
theorem conversation_run_success_shape_witness :
    (runConversation echoConnector sampleConv "hi").messages =
      [{ sender_role := "user", agent_id := none, content := "hi" },
       { sender_role := "agent1", agent_id := some 1, content := "reply:hi" },
       { sender_role := "agent2", agent_id := some 2, content := "reply:reply:hi" }] ∧
    (runConversation echoConnector sampleConv "hi").status = "finished" ∧
    (runConversation echoConnector sampleConv "hi").finished_at = true ∧
    (runConversation echoConnector sampleConv "hi").messages.length = 2 + 1 := by
  have h := conversation_run_success_shape echoConnector sampleConv "hi"
    (by decide) (by decide)
  exact ⟨by decide, h.1, h.2.1, by decide⟩

lemma turnOutputs_length (connector : Connector) (conv : ConvCfg) :
    ∀ (t turn : Nat) (current : String) (outs : List String),
      turnOutputs connector conv t turn current = some outs → outs.length = t := by
  intro t
  induction t with
  | zero =>
    intro turn current outs h
    simp [turnOutputs] at h
    simp [← h]
  | succ t ih =>
    intro turn current outs h
    simp only [turnOutputs] at h
    cases hcall : connector (mkChatCall (if turn % 2 == 0 then conv.agent1 else conv.agent2)
        current conv.random_seed) with
    | error e => rw [hcall] at h; simp at h
    | ok text =>
      rw [hcall] at h
      simp only [Option.map_eq_some'] at h
      obtain ⟨outs', h', rfl⟩ := h
      simp [ih (turn + 1) text outs' h']

lemma chatTurns_abort_spec (connector : Connector) (conv : ConvCfg) :
    ∀ (t turn : Nat) (current : String) (outs : List String) (e : String),
      turnOutputs connector conv t turn current = some outs →
      connector (mkChatCall (if (turn + t) % 2 == 0 then conv.agent1 else conv.agent2)
          (outs.getLastD current) conv.random_seed) = .error e →
      ∀ (remaining : Nat), t < remaining → ∀ (committed : List Msg),
      chatTurns connector conv remaining turn current committed =
        { messages := committed ++ turnMsgsFrom conv turn outs,
          status := "running", finished_at := false, outcome := .error e } := by
  intro t
  induction t with
  | zero =>
    intro turn current outs e hpre hfail remaining hrem committed
    simp only [turnOutputs, Option.some.injEq] at hpre
    subst hpre
    cases remaining with
    | zero => omega
    | succ r =>
      rw [chatTurns_succ_error connector conv r turn current committed e
        (by simpa using hfail)]
      simp [turnMsgsFrom]
  | succ t ih =>
    intro turn current outs e hpre hfail remaining hrem committed
    simp only [turnOutputs] at hpre
    cases hcall : connector (mkChatCall (if turn % 2 == 0 then conv.agent1 else conv.agent2)
        current conv.random_seed) with
    | error e' => rw [hcall] at hpre; simp at hpre
    | ok text =>
      rw [hcall] at hpre
      simp only [Option.map_eq_some'] at hpre
      obtain ⟨outs', hpre', rfl⟩ := hpre
      cases remaining with
      | zero => omega
      | succ r =>
        rw [chatTurns_succ_ok connector conv r turn current committed text hcall]
        have hfail' : connector (mkChatCall
            (if (turn + 1 + t) % 2 == 0 then conv.agent1 else conv.agent2)
            (outs'.getLastD text) conv.random_seed) = .error e := by
          have e3 : turn + 1 + t = turn + (t + 1) := by omega
          have hgl : (text :: outs').getLastD current = outs'.getLastD text := by
            cases outs' <;> rfl
          rw [e3, ← hgl]
          exact hfail
        rw [ih (turn + 1) text outs' e hpre' hfail' r (by omega) _]
        simp [turnMsgsFrom]

/-- C9: if the connector raises at turn `t` of a conversation run (the
`t` turns before it having succeeded with outputs `outs`), the turn
loop aborts: no Message is written for the failed turn, the committed
rows are exactly the seed Message and the `t` earlier turn Messages,
the Conversation keeps its last committed state (`running`,
`finished_at` unset) and the failure propagates to the caller. -/
theorem conversation_run_connector_failure
    (connector : Connector) (conv : ConvCfg) (prompt : String)
    (t : Nat) (outs : List String) (e : String)
    (ht : t < max 1 conv.ttl)
    (hpre : turnOutputs connector conv t 0 prompt = some outs)
    (hfail : connector (mkChatCall (if t % 2 == 0 then conv.agent1 else conv.agent2)
        (outs.getLastD prompt) conv.random_seed) = .error e) :
    runConversation connector conv prompt =
      { messages := { sender_role := "user", agent_id := none, content := prompt } ::
          turnMsgsFrom conv 0 outs,
        status := "running", finished_at := false, outcome := .error e } ∧
    (runConversation connector conv prompt).messages.length = t + 1 := by
  have h := chatTurns_abort_spec connector conv t 0 prompt outs e hpre
    (by simpa using hfail) (max 1 conv.ttl) ht
    [{ sender_role := "user", agent_id := none, content := prompt }]
  constructor
  · unfold runConversation
    rw [h]
    simp
  · unfold runConversation
    rw [h]
    have hl : ∀ (turn : Nat) (os : List String),
        (turnMsgsFrom conv turn os).length = os.length := by
      intro turn os
      induction os generalizing turn with
      | nil => rfl
      | cons o rest ih => simp [turnMsgsFrom, ih]
    simp [hl, turnOutputs_length connector conv t 0 prompt outs hpre]

/-- Concrete instantiation of C9: with a connector that echoes turn 0
and raises `"boom"` on turn 1 (`ttl = 3`), only the seed and the first
turn's Message are committed, the conversation stays `running` and the
error propagates. -/
theorem conversation_run_connector_failure_witness :
    runConversation failAtConnector sampleConv3 "hi" =
      { messages := [{ sender_role := "user", agent_id := none, content := "hi" },
                     { sender_role := "agent1", agent_id := some 1, content := "reply:hi" }],
        status := "running", finished_at := false, outcome := .error "boom" } := by
  have h := conversation_run_connector_failure failAtConnector sampleConv3 "hi"
    1 ["reply:hi"] "boom" (by decide) (by decide) (by decide)
  exact h.1.trans (by decide)

lemma processRuns_zero (runner : RunExec) (c : CancelSchedule) (now idx : Nat)
    (b : BatchJobRow) :
    processRuns runner c now 0 idx b =
      ({ b with status := "completed", end_time := some now }, [],
       [{ b with status := "completed", end_time := some now }]) := rfl

lemma processRuns_cancel (runner : RunExec) (c : CancelSchedule) (now r idx : Nat)
    (b : BatchJobRow) (hc : c idx = true) :
    processRuns runner c now (r + 1) idx b =
      ({ b with status := "cancelled", end_time := some now }, [],
       [{ b with status := "cancelled", end_time := some now }]) := by
  simp only [processRuns, hc, if_true]

lemma processRuns_error (runner : RunExec) (c : CancelSchedule) (now r idx : Nat)
    (b : BatchJobRow) (e : String) (hc : c idx = false)
    (hrun : runner idx (b.seed.map (fun s => s + (idx : Int))) = .error e) :
    processRuns runner c now (r + 1) idx b =
      ({ b with
          status := "failed"
          end_time := some now
          summary := some { conversation_ids := none, total_messages := none,
                            tokens_generated := none, error := some e } }, [],
       [{ b with
          status := "failed"
          end_time := some now
          summary := some { conversation_ids := none, total_messages := none,
                            tokens_generated := none, error := some e } }]) := by
  simp only [processRuns, hc, Bool.false_eq_true, if_false, hrun]

lemma processRuns_ok (runner : RunExec) (c : CancelSchedule) (now r idx : Nat)
    (b : BatchJobRow) (rs : RunSummary) (hc : c idx = false)
    (hrun : runner idx (b.seed.map (fun s => s + (idx : Int))) = .ok rs) :
    processRuns runner c now (r + 1) idx b =
      ((processRuns runner c now r (idx + 1)
          { b with
            summary := some (foldRunSummary b.summary rs)
            completed_runs := b.completed_runs + 1 }).1,
       (idx, b.seed.map (fun s => s + (idx : Int))) ::
         (processRuns runner c now r (idx + 1)
           { b with
             summary := some (foldRunSummary b.summary rs)
             completed_runs := b.completed_runs + 1 }).2.1,
       { b with
         summary := some (foldRunSummary b.summary rs)
         completed_runs := b.completed_runs + 1 } ::
         (processRuns runner c now r (idx + 1)
           { b with
             summary := some (foldRunSummary b.summary rs)
             completed_runs := b.completed_runs + 1 }).2.2) := by
  simp only [processRuns, hc, Bool.false_eq_true, if_false, hrun]

lemma processRuns_run_spec (runner : RunExec) (c : CancelSchedule) (now : Nat) :
    ∀ (remaining idx : Nat) (b : BatchJobRow),
      ∃ (m : Nat) (bf : BatchJobRow) (ex : List (Nat × Option Int)) (tr : List BatchJobRow),
        processRuns runner c now remaining idx b = (bf, ex, tr) ∧
        m ≤ remaining ∧
        ex = (List.range' idx m).map
          (fun (i : Nat) => (i, b.seed.map (fun s => s + (i : Int)))) ∧
        bf.completed_runs = b.completed_runs + m ∧
        bf.num_runs = b.num_runs ∧
        (∀ i, i < m → c (idx + i) = false) ∧
        (∀ i, i < m → ∃ rs, runner (idx + i)
          (b.seed.map (fun s => s + ((idx + i : Nat) : Int))) = .ok rs) ∧
        ((bf.status = "completed" ∧ m = remaining ∧ bf.end_time = some now) ∨
         (bf.status = "cancelled" ∧ m < remaining ∧ c (idx + m) = true ∧
           bf.end_time = some now) ∨
         (bf.status = "failed" ∧ m < remaining ∧ c (idx + m) = false ∧
           (∃ e, runner (idx + m)
              (b.seed.map (fun s => s + ((idx + m : Nat) : Int))) = .error e ∧
             bf.summary = some { conversation_ids := none, total_messages := none,
                                 tokens_generated := none, error := some e } ∧
             bf.end_time = some now))) := by
  intro remaining
  induction remaining with
  | zero =>
    intro idx b
    refine ⟨0, _, _, _, processRuns_zero runner c now idx b, le_refl 0, by simp, by simp,
      rfl, fun i hi => absurd hi (by omega), fun i hi => absurd hi (by omega), ?_⟩
    exact Or.inl ⟨rfl, rfl, rfl⟩
  | succ r ih =>
    intro idx b
    by_cases hc : c idx = true
    · refine ⟨0, _, _, _, processRuns_cancel runner c now r idx b hc, by omega, by simp,
        by simp, rfl, fun i hi => absurd hi (by omega), fun i hi => absurd hi (by omega), ?_⟩
      refine Or.inr (Or.inl ⟨rfl, by omega, ?_, rfl⟩)
      simpa using hc
    · have hc' : c idx = false := by
        cases h : c idx
        · rfl
        · exact absurd h hc
      cases hrun : runner idx (b.seed.map (fun s => s + (idx : Int))) with
      | error e =>
        refine ⟨0, _, _, _, processRuns_error runner c now r idx b e hc' hrun, by omega,
          by simp, by simp, rfl, fun i hi => absurd hi (by omega),
          fun i hi => absurd hi (by omega), ?_⟩
        refine Or.inr (Or.inr ⟨rfl, by omega, by simpa using hc', e, by simpa using hrun,
          rfl, rfl⟩)
      | ok rs =>
        obtain ⟨m, bf, ex, tr, heq, hm, hex, hcomp, hnum, hcfalse, hoks, hdisj⟩ :=
          ih (idx + 1)
            { b with
              summary := some (foldRunSummary b.summary rs)
              completed_runs := b.completed_runs + 1 }
        refine ⟨m + 1, bf,
          (idx, b.seed.map (fun s => s + (idx : Int))) :: ex,
          { b with
            summary := some (foldRunSummary b.summary rs)
            completed_runs := b.completed_runs + 1 } :: tr, ?_, by omega, ?_, ?_, hnum,
          ?_, ?_, ?_⟩
        · rw [processRuns_ok runner c now r idx b rs hc' hrun, heq]
        · rw [hex, List.range'_succ]
          simp
        · rw [hcomp]
          dsimp only
          omega
        · intro i hi
          cases i with
          | zero => simpa using hc'
          | succ i =>
            have e1 : idx + (i + 1) = idx + 1 + i := by omega
            rw [e1]
            exact hcfalse i (by omega)
        · intro i hi
          cases i with
          | zero => exact ⟨rs, by simpa using hrun⟩
          | succ i =>
            have e1 : idx + (i + 1) = idx + 1 + i := by omega
            rw [e1]
            exact hoks i (by omega)
        · rcases hdisj with ⟨h1, h2, h3⟩ | ⟨h1, h2, h3, h4⟩ | ⟨h1, h2, h3, e, h4, h5, h6⟩
          · exact Or.inl ⟨h1, by omega, h3⟩
          · refine Or.inr (Or.inl ⟨h1, by omega, ?_, h4⟩)
            have e1 : idx + (m + 1) = idx + 1 + m := by omega
            rw [e1]
            exact h3
          · refine Or.inr (Or.inr ⟨h1, by omega, ?_, e, ?_, h5, h6⟩)
            · have e1 : idx + (m + 1) = idx + 1 + m := by omega
              rw [e1]
              exact h3
            · have e1 : idx + (m + 1) = idx + 1 + m := by omega
              rw [e1]
              exact h4

lemma processRuns_trace_spec (runner : RunExec) (c : CancelSchedule) (now : Nat) :
    ∀ (remaining idx : Nat) (b : BatchJobRow),
      List.Pairwise (fun x y => x.completed_runs ≤ y.completed_runs)
        (b :: (processRuns runner c now remaining idx b).2.2) ∧
      (∀ s ∈ (processRuns runner c now remaining idx b).2.2,
        b.completed_runs ≤ s.completed_runs ∧
        s.completed_runs ≤ (processRuns runner c now remaining idx b).1.completed_runs ∧
        s.num_runs = b.num_runs) ∧
      b.completed_runs ≤ (processRuns runner c now remaining idx b).1.completed_runs ∧
      (processRuns runner c now remaining idx b).1.status ∈ terminalStatuses := by
  intro remaining
  induction remaining with
  | zero =>
    intro idx b
    rw [processRuns_zero]
    refine ⟨?_, ?_, le_refl _, by simp [terminalStatuses]⟩
    · simp
    · intro s hs
      simp at hs
      subst hs
      exact ⟨le_refl _, le_refl _, rfl⟩
  | succ r ih =>
    intro idx b
    by_cases hc : c idx = true
    · rw [processRuns_cancel runner c now r idx b hc]
      refine ⟨by simp, ?_, le_refl _, by simp [terminalStatuses]⟩
      intro s hs
      simp at hs
      subst hs
      exact ⟨le_refl _, le_refl _, rfl⟩
    · have hc' : c idx = false := by
        cases h : c idx
        · rfl
        · exact absurd h hc
      cases hrun : runner idx (b.seed.map (fun s => s + (idx : Int))) with
      | error e =>
        rw [processRuns_error runner c now r idx b e hc' hrun]
        refine ⟨by simp, ?_, le_refl _, by simp [terminalStatuses]⟩
        intro s hs
        simp at hs
        subst hs
        exact ⟨le_refl _, le_refl _, rfl⟩
      | ok rs =>
        rw [processRuns_ok runner c now r idx b rs hc' hrun]
        obtain ⟨ihp, ihb, ihle, ihst⟩ := ih (idx + 1)
          { b with
            summary := some (foldRunSummary b.summary rs)
            completed_runs := b.completed_runs + 1 }
        have hble : b.completed_runs ≤ b.completed_runs + 1 := by omega
        refine ⟨?_, ?_, ?_, ihst⟩
        · rw [List.pairwise_cons]
          refine ⟨?_, ihp⟩
          intro s hs
          simp at hs
          rcases hs with hs | hs
          · subst hs
            exact hble
          · exact le_trans hble ((ihb s hs).1)
        · intro s hs
          simp at hs
          rcases hs with hs | hs
          · subst hs
            exact ⟨hble, ihle, rfl⟩
          · obtain ⟨g1, g2, g3⟩ := ihb s hs
            exact ⟨le_trans hble g1, g2, g3⟩
        · exact le_trans hble ihle

lemma processBatch_not_terminal (runner : RunExec) (c : CancelSchedule) (now : Nat)
    (b : BatchJobRow) (hterm : b.status ∉ terminalStatuses) :
    processBatch runner c now b =
      ((processRuns runner c now (b.num_runs - b.completed_runs) b.completed_runs
          { b with status := "running", start_time := some (b.start_time.getD now) }).1,
       (processRuns runner c now (b.num_runs - b.completed_runs) b.completed_runs
          { b with status := "running", start_time := some (b.start_time.getD now) }).2.1,
       { b with status := "running", start_time := some (b.start_time.getD now) } ::
         (processRuns runner c now (b.num_runs - b.completed_runs) b.completed_runs
           { b with status := "running", start_time := some (b.start_time.getD now) }).2.2) := by
  unfold processBatch
  rw [if_neg hterm]

/-- C3: processing a non-terminal BatchJob executes exactly the runs
with indices `completed_runs .. num_runs - 1` in order when nothing
cancels or fails, and in every case the committed runs form the
contiguous block starting at `completed_runs` — no run below
`completed_runs` is re-executed and no index is skipped — with each
run's seed derived as `seed + run_index` when a base seed is configured
and absent otherwise. -/
theorem batch_resume_executes_exactly_pending_runs
    (runner : RunExec) (c : CancelSchedule) (now : Nat) (b : BatchJobRow)
    (hterm : b.status ∉ terminalStatuses) :
    (∃ m, m ≤ b.num_runs - b.completed_runs ∧
      (processBatch runner c now b).2.1 =
        (List.range' b.completed_runs m).map
          (fun (i : Nat) => (i, b.seed.map (fun s => s + (i : Int))))) ∧
    ((∀ i, c i = false) → (∀ i s, (runner i s).isOk = true) →
      (processBatch runner c now b).2.1 =
        (List.range' b.completed_runs (b.num_runs - b.completed_runs)).map
          (fun (i : Nat) => (i, b.seed.map (fun s => s + (i : Int))))) := by
  obtain ⟨m, bf, ex, tr, heq, hm, hex, hcomp, hnum, hcfalse, hoks, hdisj⟩ :=
    processRuns_run_spec runner c now (b.num_runs - b.completed_runs) b.completed_runs
      { b with status := "running", start_time := some (b.start_time.getD now) }
  have hexq : (processBatch runner c now b).2.1 = ex := by
    rw [processBatch_not_terminal runner c now b hterm, heq]
  constructor
  · refine ⟨m, hm, ?_⟩
    rw [hexq]
    exact hex
  · intro hnc hok
    have hmeq : m = b.num_runs - b.completed_runs := by
      rcases hdisj with ⟨_, h2, _⟩ | ⟨_, _, h3, _⟩ | ⟨_, _, _, e, h4, _, _⟩
      · exact h2
      · rw [hnc] at h3
        exact absurd h3 (by simp)
      · have h5 := hok (b.completed_runs + m)
          (b.seed.map (fun s => s + ((b.completed_runs + m : Nat) : Int)))
        rw [h4] at h5
        simp [Except.isOk, Except.toBool] at h5
    subst hmeq
    rw [hexq]
    exact hex

/-- Concrete instantiation of C3: resuming a job with 3 runs and
`completed_runs = 1` (base seed 10) executes exactly runs 1 and 2 with
seeds 11 and 12. -/
theorem batch_resume_executes_exactly_pending_runs_witness :
    (processBatch (fun i _ => .ok { id := i, messages := 2, tokens := 3 })
        (fun _ => false) 0 sampleBatchJob).2.1 =
      [(1, some 11), (2, some 12)] := by
  have h := batch_resume_executes_exactly_pending_runs
    (fun i _ => .ok { id := i, messages := 2, tokens := 3 }) (fun _ => false) 0
    sampleBatchJob (by decide)
  rw [h.2 (fun i => rfl) (fun i s => rfl)]
  decide

/-- C5: cancellation is cooperative between runs.  The cancel endpoint
sets the sticky `cancel_requested` flag and immediately cancels a
still-`queued` job (leaving any other non-terminal status unchanged);
the worker observes the flag only at the re-read before each run, so
when the first checkpoint that observes it is the one before run `j`,
every run below `j` has completed all its turns and its commit
(`completed_runs = j`, the executed list is exactly
`completed_runs .. j-1`) before the job transitions to `cancelled` with
`end_time` stamped — no turn-level or mid-run cancellation occurs. -/
theorem batch_cancellation_checkpoints :
    (∀ (now : Nat) (b : BatchJobRow), b.status ∉ terminalStatuses →
      (cancelBatchJob now b).cancel_requested = true ∧
      (b.status = "queued" →
        (cancelBatchJob now b).status = "cancelled" ∧
        (cancelBatchJob now b).end_time = some now) ∧
      (b.status ≠ "queued" → (cancelBatchJob now b).status = b.status)) ∧
    (∀ (runner : RunExec) (c : CancelSchedule) (now : Nat) (b : BatchJobRow) (j : Nat),
      b.status ∉ terminalStatuses →
      b.completed_runs ≤ j → j < b.num_runs →
      (∀ i, i < j → c i = false) →
      c j = true →
      (∀ i s, (runner i s).isOk = true) →
      (processBatch runner c now b).1.status = "cancelled" ∧
      (processBatch runner c now b).1.end_time = some now ∧
      (processBatch runner c now b).1.completed_runs = j ∧
      (processBatch runner c now b).2.1 =
        (List.range' b.completed_runs (j - b.completed_runs)).map
          (fun (i : Nat) => (i, b.seed.map (fun s => s + (i : Int))))) := by
  constructor
  · intro now b hterm
    unfold cancelBatchJob
    rw [if_neg hterm]
    by_cases hq : b.status = "queued"
    · rw [if_pos (by simpa using hq)]
      exact ⟨rfl, fun _ => ⟨rfl, rfl⟩, fun h => absurd hq h⟩
    · rw [if_neg (by simpa using hq)]
      exact ⟨rfl, fun h => absurd h hq, fun _ => rfl⟩
  · intro runner c now b j hterm hj1 hj2 hbefore hcj hok
    obtain ⟨m, bf, ex, tr, heq, hm, hex, hcomp, hnum, hcfalse, hoks, hdisj⟩ :=
      processRuns_run_spec runner c now (b.num_runs - b.completed_runs) b.completed_runs
        { b with status := "running", start_time := some (b.start_time.getD now) }
    have hbfq : (processBatch runner c now b).1 = bf := by
      rw [processBatch_not_terminal runner c now b hterm, heq]
    have hexq : (processBatch runner c now b).2.1 = ex := by
      rw [processBatch_not_terminal runner c now b hterm, heq]
    have hcomp' : bf.completed_runs = b.completed_runs + m := hcomp
    have hmeq : b.completed_runs + m = j := by
      rcases hdisj with ⟨_, h2, _⟩ | ⟨_, _, h3, _⟩ | ⟨_, _, _, e, h4, _, _⟩
      · exfalso
        have hlt : j - b.completed_runs < m := by omega
        have := hcfalse (j - b.completed_runs) hlt
        rw [show b.completed_runs + (j - b.completed_runs) = j from by omega] at this
        rw [hcj] at this
        simp at this
      · by_cases hcmp : b.completed_runs + m < j
        · exfalso
          have := hbefore (b.completed_runs + m) hcmp
          rw [h3] at this
          simp at this
        · by_cases hcmp2 : j < b.completed_runs + m
          · exfalso
            have hlt : j - b.completed_runs < m := by omega
            have := hcfalse (j - b.completed_runs) hlt
            rw [show b.completed_runs + (j - b.completed_runs) = j from by omega] at this
            rw [hcj] at this
            simp at this
          · omega
      · exfalso
        have h5 := hok (b.completed_runs + m)
          (b.seed.map (fun s => s + ((b.completed_runs + m : Nat) : Int)))
        rw [h4] at h5
        simp [Except.isOk, Except.toBool] at h5
    have hcancel : bf.status = "cancelled" ∧ bf.end_time = some now := by
      rcases hdisj with ⟨_, h2, _⟩ | ⟨h1, _, _, h4⟩ | ⟨_, h2, h3, _⟩
      · exfalso
        have hlt : j - b.completed_runs < m := by omega
        have := hcfalse (j - b.completed_runs) hlt
        rw [show b.completed_runs + (j - b.completed_runs) = j from by omega] at this
        rw [hcj] at this
        simp at this
      · exact ⟨h1, h4⟩
      · exfalso
        rw [show b.completed_runs + m = j from hmeq] at h3
        rw [hcj] at h3
        simp at h3
    refine ⟨?_, ?_, ?_, ?_⟩
    · rw [hbfq]
      exact hcancel.1
    · rw [hbfq]
      exact hcancel.2
    · rw [hbfq, hcomp']
      omega
    · rw [hexq, hex]
      rw [show m = j - b.completed_runs from by omega]

/-- Concrete instantiation of C5: cancelling a queued job cancels it
immediately, and a worker pass that observes the flag before run 2 of a
resumable job (runs 1 and 2 pending) commits run 1 and then cancels
with `completed_runs = 2`. -/
theorem batch_cancellation_checkpoints_witness :
    (cancelBatchJob 5 jobC4).status = "cancelled" ∧
    (processBatch (fun i _ => .ok { id := i, messages := 2, tokens := 3 })
        (fun i => i == 2) 0 sampleBatchJob).1.status = "cancelled" ∧
    (processBatch (fun i _ => .ok { id := i, messages := 2, tokens := 3 })
        (fun i => i == 2) 0 sampleBatchJob).1.completed_runs = 2 ∧
    (processBatch (fun i _ => .ok { id := i, messages := 2, tokens := 3 })
        (fun i => i == 2) 0 sampleBatchJob).2.1 = [(1, some 11)] := by
  have h1 := (batch_cancellation_checkpoints.1 5 jobC4 (by decide)).2.1 rfl
  have h2 := batch_cancellation_checkpoints.2
    (fun i _ => .ok { id := i, messages := 2, tokens := 3 }) (fun i => i == 2) 0
    sampleBatchJob 2 (by decide) (by decide) (by decide)
    (fun i hi => by
      have : i = 0 ∨ i = 1 := by omega
      rcases this with h | h <;> subst h <;> rfl)
    rfl (fun i s => rfl)
  refine ⟨h1.1, h2.1, h2.2.2.1, ?_⟩
  rw [h2.2.2.2]
  decide

/-- C4 counterexample: when run 1 of a two-run job raises after run 0
committed, the failure handler replaces the whole summary with
`{"error": ...}` — the conversation-id list and the message/token
counters of the completed run are no longer present in the summary a
caller sees, contradicting the claim that the partial summary of
completed runs is preserved. -/
theorem batch_failure_replaces_summary :
    (processBatch runnerC4 (fun _ => false) 0 jobC4).1.status = "failed" ∧
    (processBatch runnerC4 (fun _ => false) 0 jobC4).1.completed_runs = 1 ∧
    (processBatch runnerC4 (fun _ => false) 0 jobC4).1.summary =
      some { conversation_ids := none, total_messages := none,
             tokens_generated := none, error := some "boom" } := by
  refine ⟨by decide, by decide, by decide⟩

/-- C4 (amended): an unhandled exception at run `j` marks the job
`failed`, stamps `end_time`, stops further runs, and leaves
`completed_runs` and the committed conversations of runs
`completed_runs .. j-1` intact, but the stored summary is replaced by
the error text alone — the conversation ids and message/token counters
previously accumulated in the summary are dropped. -/
theorem batch_run_failure_marks_failed
    (runner : RunExec) (c : CancelSchedule) (now : Nat) (b : BatchJobRow)
    (j : Nat) (e : String)
    (hterm : b.status ∉ terminalStatuses)
    (hj1 : b.completed_runs ≤ j) (hj2 : j < b.num_runs)
    (hc : ∀ i, i ≤ j → c i = false)
    (hok : ∀ i s, i < j → (runner i s).isOk = true)
    (hfail : runner j (b.seed.map (fun s => s + (j : Int))) = .error e) :
    (processBatch runner c now b).1.status = "failed" ∧
    (processBatch runner c now b).1.end_time = some now ∧
    (processBatch runner c now b).1.summary =
      some { conversation_ids := none, total_messages := none,
             tokens_generated := none, error := some e } ∧
    (processBatch runner c now b).1.completed_runs = j ∧
    (processBatch runner c now b).2.1 =
      (List.range' b.completed_runs (j - b.completed_runs)).map
        (fun (i : Nat) => (i, b.seed.map (fun s => s + (i : Int)))) := by
  obtain ⟨m, bf, ex, tr, heq, hm, hex, hcomp, hnum, hcfalse, hoks, hdisj⟩ :=
    processRuns_run_spec runner c now (b.num_runs - b.completed_runs) b.completed_runs
      { b with status := "running", start_time := some (b.start_time.getD now) }
  have hbfq : (processBatch runner c now b).1 = bf := by
    rw [processBatch_not_terminal runner c now b hterm, heq]
  have hexq : (processBatch runner c now b).2.1 = ex := by
    rw [processBatch_not_terminal runner c now b hterm, heq]
  have hcomp' : bf.completed_runs = b.completed_runs + m := hcomp
  have hoks' : ∀ i, i < m → ∃ rs, runner (b.completed_runs + i)
      (b.seed.map (fun s => s + ((b.completed_runs + i : Nat) : Int))) = .ok rs := hoks
  have hnotlt : ¬(j < b.completed_runs + m) := by
    intro hlt
    have hlt' : j - b.completed_runs < m := by omega
    obtain ⟨rs, hrs⟩ := hoks' (j - b.completed_runs) hlt'
    rw [show b.completed_runs + (j - b.completed_runs) = j from by omega] at hrs
    rw [hfail] at hrs
    exact Except.noConfusion hrs
  have hmeq : b.completed_runs + m = j := by
    rcases hdisj with ⟨_, h2, _⟩ | ⟨_, _, h3, _⟩ | ⟨_, _, h3, e', h4, _, _⟩
    · exfalso
      exact hnotlt (by omega)
    · by_cases hcmp : b.completed_runs + m ≤ j
      · exfalso
        have := hc (b.completed_runs + m) hcmp
        rw [h3] at this
        simp at this
      · exact absurd (by omega) hnotlt
    · by_cases hcmp : b.completed_runs + m < j
      · exfalso
        have h5 := hok (b.completed_runs + m)
          (b.seed.map (fun s => s + ((b.completed_runs + m : Nat) : Int))) hcmp
        rw [h4] at h5
        simp [Except.isOk, Except.toBool] at h5
      · omega
  have hfailed : bf.status = "failed" ∧ bf.end_time = some now ∧
      bf.summary = some { conversation_ids := none, total_messages := none,
                          tokens_generated := none, error := some e } := by
    rcases hdisj with ⟨_, h2, _⟩ | ⟨_, _, h3, _⟩ | ⟨h1, _, _, e', h4, h5, h6⟩
    · exfalso
      exact hnotlt (by omega)
    · exfalso
      rw [show b.completed_runs + m = j from hmeq] at h3
      have := hc j (le_refl j)
      rw [h3] at this
      simp at this
    · have he : e' = e := by
        rw [show b.completed_runs + m = j from hmeq] at h4
        rw [hfail] at h4
        cases h4
        rfl
      subst he
      exact ⟨h1, h6, h5⟩
  refine ⟨?_, ?_, ?_, ?_, ?_⟩
  · rw [hbfq]
    exact hfailed.1
  · rw [hbfq]
    exact hfailed.2.1
  · rw [hbfq]
    exact hfailed.2.2
  · rw [hbfq, hcomp']
    omega
  · rw [hexq, hex]
    rw [show m = j - b.completed_runs from by omega]

/-- Concrete instantiation of the amended C4 on the two-run job whose
second run raises `"boom"`. -/
theorem batch_run_failure_marks_failed_witness :
    (processBatch runnerC4 (fun _ => false) 0 jobC4).1.end_time = some 0 ∧
    (processBatch runnerC4 (fun _ => false) 0 jobC4).2.1 = [(0, none)] := by
  have h := batch_run_failure_marks_failed runnerC4 (fun _ => false) 0 jobC4 1 "boom"
    (by decide) (by decide) (by decide) (fun i hi => rfl)
    (fun i s hi => by
      have : i = 0 := by omega
      subst this
      rfl)
    rfl
  refine ⟨h.2.1, ?_⟩
  rw [h.2.2.2.2]
  decide

lemma applyBatchOp_spec (op : BatchOp) (b : BatchJobRow)
    (h1 : 1 ≤ b.num_runs) (h2 : b.completed_runs ≤ b.num_runs)
    (h3 : b.status = "cancelled" → b.completed_runs < b.num_runs)
    (h4 : b.status = "queued" → b.completed_runs < b.num_runs) :
    (1 ≤ (applyBatchOp op b).1.num_runs ∧
     (applyBatchOp op b).1.completed_runs ≤ (applyBatchOp op b).1.num_runs ∧
     ((applyBatchOp op b).1.status = "cancelled" →
       (applyBatchOp op b).1.completed_runs < (applyBatchOp op b).1.num_runs) ∧
     ((applyBatchOp op b).1.status = "queued" →
       (applyBatchOp op b).1.completed_runs < (applyBatchOp op b).1.num_runs)) ∧
    (∀ s ∈ (applyBatchOp op b).2, s.completed_runs ≤ s.num_runs) ∧
    List.Pairwise (fun x y => x.completed_runs ≤ y.completed_runs)
      (b :: (applyBatchOp op b).2) ∧
    b.completed_runs ≤ (applyBatchOp op b).1.completed_runs ∧
    (∀ s ∈ (applyBatchOp op b).2,
      s.completed_runs ≤ (applyBatchOp op b).1.completed_runs) := by
  cases op with
  | cancel now =>
    have hres : applyBatchOp (BatchOp.cancel now) b =
        (cancelBatchJob now b, [cancelBatchJob now b]) := rfl
    have hfields : (cancelBatchJob now b).completed_runs = b.completed_runs ∧
        (cancelBatchJob now b).num_runs = b.num_runs := by
      unfold cancelBatchJob
      by_cases hterm : b.status ∈ terminalStatuses
      · rw [if_pos hterm]
        exact ⟨rfl, rfl⟩
      · rw [if_neg hterm]
        by_cases hq : b.status = "queued"
        · rw [if_pos (by simpa using hq)]
          exact ⟨rfl, rfl⟩
        · rw [if_neg (by simpa using hq)]
          exact ⟨rfl, rfl⟩
    have hstatus : (cancelBatchJob now b).status = "cancelled" →
        b.status = "cancelled" ∨ b.status = "queued" := by
      unfold cancelBatchJob
      by_cases hterm : b.status ∈ terminalStatuses
      · rw [if_pos hterm]
        exact fun h => Or.inl h
      · rw [if_neg hterm]
        by_cases hq : b.status = "queued"
        · rw [if_pos (by simpa using hq)]
          exact fun _ => Or.inr hq
        · rw [if_neg (by simpa using hq)]
          exact fun h => Or.inl h
    have hqueued : (cancelBatchJob now b).status = "queued" → b.status = "queued" := by
      unfold cancelBatchJob
      by_cases hterm : b.status ∈ terminalStatuses
      · rw [if_pos hterm]
        exact fun h => h
      · rw [if_neg hterm]
        by_cases hq : b.status = "queued"
        · rw [if_pos (by simpa using hq)]
          intro h
          simp at h
        · rw [if_neg (by simpa using hq)]
          exact fun h => h
    rw [hres]
    refine ⟨⟨?_, ?_, ?_, ?_⟩, ?_, ?_, ?_, ?_⟩
    · rw [hfields.2]
      exact h1
    · rw [hfields.1, hfields.2]
      exact h2
    · intro hcs
      rw [hfields.1, hfields.2]
      rcases hstatus hcs with h | h
      · exact h3 h
      · exact h4 h
    · intro hcs
      rw [hfields.1, hfields.2]
      exact h4 (hqueued hcs)
    · intro s hs
      simp at hs
      subst hs
      rw [hfields.1, hfields.2]
      exact h2
    · refine List.pairwise_cons.mpr ⟨?_, by simp⟩
      intro s hs
      simp at hs
      subst hs
      rw [hfields.1]
    · rw [hfields.1]
    · intro s hs
      simp at hs
      subst hs
      exact le_refl _
  | process runner c now =>
    by_cases hterm : b.status ∈ terminalStatuses
    · have hpb : processBatch runner c now b = (b, [], []) := by
        unfold processBatch
        rw [if_pos hterm]
      have hres : applyBatchOp (BatchOp.process runner c now) b = (b, []) := by
        show ((processBatch runner c now b).1, (processBatch runner c now b).2.2) = (b, [])
        rw [hpb]
      rw [hres]
      exact ⟨⟨h1, h2, h3, h4⟩, by simp, by simp, le_refl _, by simp⟩
    · obtain ⟨m, bf, ex, tr, heq, hm, hex, hcomp, hnum, hcfalse, hoks, hdisj⟩ :=
        processRuns_run_spec runner c now (b.num_runs - b.completed_runs) b.completed_runs
          { b with status := "running", start_time := some (b.start_time.getD now) }
      obtain ⟨ihp, ihb, ihle, ihst⟩ :=
        processRuns_trace_spec runner c now (b.num_runs - b.completed_runs) b.completed_runs
          { b with status := "running", start_time := some (b.start_time.getD now) }
      rw [heq] at ihp ihb ihle
      have hres : applyBatchOp (BatchOp.process runner c now) b =
          (bf,
           { b with status := "running", start_time := some (b.start_time.getD now) } ::
             tr) := by
        show ((processBatch runner c now b).1, (processBatch runner c now b).2.2) = _
        rw [processBatch_not_terminal runner c now b hterm, heq]
      rw [hres]
      have hcomp' : bf.completed_runs = b.completed_runs + m := hcomp
      have hnum' : bf.num_runs = b.num_runs := hnum
      have hbound : bf.completed_runs ≤ b.num_runs := by
        rw [hcomp']
        omega
      have hnotqueued : bf.status ≠ "queued" := by
        rcases hdisj with ⟨h, _, _⟩ | ⟨h, _, _, _⟩ | ⟨h, _, _, _⟩ <;>
          rw [h] <;> decide
      have hcanc : bf.status = "cancelled" → bf.completed_runs < bf.num_runs := by
        intro hcs
        rcases hdisj with ⟨h, _, _⟩ | ⟨_, hlt, _, _⟩ | ⟨h, _, _, _⟩
        · rw [h] at hcs
          exact absurd hcs (by decide)
        · rw [hcomp', hnum']
          omega
        · rw [h] at hcs
          exact absurd hcs (by decide)
      refine ⟨⟨by rw [hnum']; exact h1, by rw [hnum']; exact hbound, hcanc,
        fun h => absurd h hnotqueued⟩, ?_, ?_, ?_, ?_⟩
      · intro s hs
        simp at hs
        rcases hs with hs | hs
        · subst hs
          exact h2
        · obtain ⟨g1, g2, g3⟩ := ihb s hs
          rw [g3]
          exact le_trans g2 hbound
      · refine List.pairwise_cons.mpr ⟨?_, ihp⟩
        intro s hs
        simp at hs
        rcases hs with hs | hs
        · subst hs
          exact le_refl _
        · exact (ihb s hs).1
      · exact ihle
      · intro s hs
        simp at hs
        rcases hs with hs | hs
        · subst hs
          exact ihle
        · exact (ihb s hs).2.1

lemma runBatchOps_spec (ops : List BatchOp) : ∀ (b : BatchJobRow),
    1 ≤ b.num_runs → b.completed_runs ≤ b.num_runs →
    (b.status = "cancelled" → b.completed_runs < b.num_runs) →
    (b.status = "queued" → b.completed_runs < b.num_runs) →
    (1 ≤ (runBatchOps ops b).1.num_runs ∧
     (runBatchOps ops b).1.completed_runs ≤ (runBatchOps ops b).1.num_runs ∧
     ((runBatchOps ops b).1.status = "cancelled" →
       (runBatchOps ops b).1.completed_runs < (runBatchOps ops b).1.num_runs) ∧
     ((runBatchOps ops b).1.status = "queued" →
       (runBatchOps ops b).1.completed_runs < (runBatchOps ops b).1.num_runs)) ∧
    (∀ s ∈ (runBatchOps ops b).2, s.completed_runs ≤ s.num_runs) ∧
    List.Pairwise (fun x y => x.completed_runs ≤ y.completed_runs)
      (b :: (runBatchOps ops b).2) ∧
    b.completed_runs ≤ (runBatchOps ops b).1.completed_runs ∧
    (∀ s ∈ (runBatchOps ops b).2,
      s.completed_runs ≤ (runBatchOps ops b).1.completed_runs) := by
  induction ops with
  | nil =>
    intro b h1 h2 h3 h4
    exact ⟨⟨h1, h2, h3, h4⟩, by simp [runBatchOps], by simp [runBatchOps],
      le_refl _, by simp [runBatchOps]⟩
  | cons op ops ih =>
    intro b h1 h2 h3 h4
    obtain ⟨⟨a1, a2, a3, a4⟩, ab, ap, ale, amax⟩ := applyBatchOp_spec op b h1 h2 h3 h4
    obtain ⟨bi, bb, bp, ble, bmax⟩ := ih (applyBatchOp op b).1 a1 a2 a3 a4
    have hres : runBatchOps (op :: ops) b =
        ((runBatchOps ops (applyBatchOp op b).1).1,
         (applyBatchOp op b).2 ++ (runBatchOps ops (applyBatchOp op b).1).2) := rfl
    rw [hres]
    have hhead : ∀ s ∈ (runBatchOps ops (applyBatchOp op b).1).2,
        (applyBatchOp op b).1.completed_runs ≤ s.completed_runs :=
      fun s hs => (List.pairwise_cons.mp bp).1 s hs
    refine ⟨bi, ?_, ?_, ?_, ?_⟩
    · intro s hs
      rw [List.mem_append] at hs
      rcases hs with hs | hs
      · exact ab s hs
      · exact bb s hs
    · rw [List.pairwise_cons]
      constructor
      · intro s hs
        rw [List.mem_append] at hs
        rcases hs with hs | hs
        · exact (List.pairwise_cons.mp ap).1 s hs
        · exact le_trans ale (hhead s hs)
      · rw [List.pairwise_append]
        refine ⟨(List.pairwise_cons.mp ap).2, (List.pairwise_cons.mp bp).2, ?_⟩
        intro x hx y hy
        exact le_trans (amax x hx) (hhead y hy)
    · exact le_trans ale ble
    · intro s hs
      rw [List.mem_append] at hs
      rcases hs with hs | hs
      · exact le_trans (amax s hs) ble
      · exact bmax s hs

/-- C6: starting from a freshly created BatchJob, for every sequence of
scheduler/cancel operations the committed values of `completed_runs`
are monotonically non-decreasing over time and never exceed `num_runs`,
and a job that ends in status `cancelled` satisfies
`completed_runs < num_runs` (in this single-worker model the
cancellation checkpoint always fires strictly before the final run's
commit, so the race carve-out of the claim is not even needed). -/
theorem batch_completed_runs_invariants (prompt : String) (ttl num_runs : Int)
    (seed : Option Int) (ops : List BatchOp) :
    List.Pairwise (fun x y => x.completed_runs ≤ y.completed_runs)
      (newBatchJob prompt ttl num_runs seed ::
        (runBatchOps ops (newBatchJob prompt ttl num_runs seed)).2) ∧
    (∀ s ∈ newBatchJob prompt ttl num_runs seed ::
        (runBatchOps ops (newBatchJob prompt ttl num_runs seed)).2,
      s.completed_runs ≤ s.num_runs) ∧
    ((runBatchOps ops (newBatchJob prompt ttl num_runs seed)).1.status = "cancelled" →
      (runBatchOps ops (newBatchJob prompt ttl num_runs seed)).1.completed_runs <
        (runBatchOps ops (newBatchJob prompt ttl num_runs seed)).1.num_runs) := by
  have hnum : 1 ≤ (newBatchJob prompt ttl num_runs seed).num_runs := by
    show 1 ≤ (max 1 num_runs).toNat
    omega
  have hcomp : (newBatchJob prompt ttl num_runs seed).completed_runs ≤
      (newBatchJob prompt ttl num_runs seed).num_runs := by
    show 0 ≤ (max 1 num_runs).toNat
    omega
  have hcanc : (newBatchJob prompt ttl num_runs seed).status = "cancelled" →
      (newBatchJob prompt ttl num_runs seed).completed_runs <
        (newBatchJob prompt ttl num_runs seed).num_runs := by
    intro h
    simp [newBatchJob] at h
  have hq : (newBatchJob prompt ttl num_runs seed).status = "queued" →
      (newBatchJob prompt ttl num_runs seed).completed_runs <
        (newBatchJob prompt ttl num_runs seed).num_runs := by
    intro _
    show 0 < (max 1 num_runs).toNat
    omega
  obtain ⟨⟨i1, i2, i3, i4⟩, ib, ip, ile, imax⟩ :=
    runBatchOps_spec ops (newBatchJob prompt ttl num_runs seed) hnum hcomp hcanc hq
  refine ⟨ip, ?_, i3⟩
  intro s hs
  rcases List.mem_cons.mp hs with hs | hs
  · subst hs
    exact hcomp
  · exact ib s hs

/-- Concrete instantiation of the C7 decision tables: an errored model
is reported not-present even on a reachable engine that lists it, and a
disabled agent reports `disabled`. -/
theorem status_decision_tables_witness :
    compute_model_status ⟨"llama", "error"⟩ ⟨true⟩ (some ["llama"]) =
      ⟨false, false, "not_present"⟩ ∧
    compute_agent_status ⟨"disabled"⟩ ⟨true, true, "warm"⟩ ⟨true⟩ = "disabled" :=
  ⟨(status_decision_tables.1 ⟨"llama", "error"⟩ ⟨true⟩ (some ["llama"])).1 rfl,
   (status_decision_tables.2 ⟨"disabled"⟩ ⟨true, true, "warm"⟩ ⟨true⟩).1 rfl⟩

end Duo
